import Mathlib

/-! Scrypt parameter schedule (`GetNfactor`) and the block clock.

A shallow embedding of `src/n_factor.cpp` (`GetNfactor`) and of the wire
conversions of `src/btc_time.h` (`clock::to_nTime`, `clock::from_nTime`).

Conventions of the embedding:

* a `time_point` of the block clock is its count of seconds since the epoch,
  an `Int` inside the signed 64-bit range (`clock::rep`);
* an `unsigned` is a `Nat` below `2 ^ 32`, an `unsigned long long` / `size_t`
  a `Nat` below `2 ^ 64`; conversions and shifts reduce modulo the width;
* a `safe<long long>` is the `Int` it boxes; its operators return
  `Except Failure Int`;
* the three native shifts of `GetNfactor` carry no guard on their count: as in
  the compiled code, where the shift instruction reads its count modulo the
  operand width, `shift_left` takes the count modulo the width, so a block time
  whose step count is 64 or more goes on with the reduced count;
* a signed overflow in the conversion of the configured block period to
  nanoseconds has no defined result and is the failure
  `Failure.undefined_behaviour`.
-/

/-- Outcomes of a call other than a returned tuple. -/
inductive Failure where
  /-- a `safe<>` operation whose true result is not representable -/
  | overflow_error
  /-- a `safe<>` narrowing conversion whose value does not fit -/
  | range_error
  /-- a `safe<>` division by zero -/
  | divide_by_zero
  /-- the `std::length_error("N factor is too large")` of `GetNfactor` -/
  | length_error
  /-- a failed `assert` -/
  | assertion
  /-- a native signed operation with no defined result -/
  | undefined_behaviour
  /-- the loop of the embedding used up its iteration budget -/
  | out_of_fuel
  deriving DecidableEq, Repr

instance instDecidableEqExcept {ε α : Type} [DecidableEq ε] [DecidableEq α] :
    DecidableEq (Except ε α) := fun a b =>
  match a, b with
  | .ok x, .ok y =>
    if h : x = y then isTrue (by rw [h]) else isFalse (fun e => h (by cases e; rfl))
  | .error x, .error y =>
    if h : x = y then isTrue (by rw [h]) else isFalse (fun e => h (by cases e; rfl))
  | .ok _, .error _ => isFalse (fun e => by cases e)
  | .error _, .ok _ => isFalse (fun e => by cases e)

/-! ## Machine integers -/

/-- Largest `long long`. -/
def LLONG_MAX : Int := 2 ^ 63 - 1

/-- Smallest `long long`. -/
def LLONG_MIN : Int := -(2 ^ 63)

/-- Largest `uint32_t` / `unsigned`: `std::numeric_limits<uint32_t>::max()`. -/
def UINT32_MAX : Int := 2 ^ 32 - 1

/-- The value is representable as a `long long` (also `clock::rep`). -/
def fits_long_long (x : Int) : Prop := LLONG_MIN ≤ x ∧ x ≤ LLONG_MAX

instance instDecidableFitsLongLong (x : Int) : Decidable (fits_long_long x) := by
  unfold fits_long_long; infer_instance

/-- Conversion of a 64-bit signed value to `int` (32-bit two's complement):
the narrowing at `const int moore_steps = ...`. -/
def to_int (x : Int) : Int := (x + 2 ^ 31) % 2 ^ 32 - 2 ^ 31

/-- Conversion of a 64-bit signed value to `unsigned`: reduction modulo `2 ^ 32`. -/
def to_unsigned (x : Int) : Nat := (x % 2 ^ 32).toNat

/-- Native left shift `x << n` of an unsigned operand of `width` bits by an
`int` count. The source shifts without a guard on the count, and the shift
instruction of the compiled code reads the count modulo the operand width (the
low 6 bits for a 64-bit operand, the low 5 bits for a 32-bit one, of the two's
complement count): the result is `x * 2 ^ (n mod width)` reduced modulo
`2 ^ width`. For `0 ≤ n < width` this is `x * 2 ^ n` reduced modulo
`2 ^ width`. The shift never fails; its result type is the one of the fallible
steps of the body. -/
def shift_left (width : Nat) (x : Nat) (n : Int) : Except Failure Nat :=
  .ok (x * 2 ^ (n % (width : Int)).toNat % 2 ^ width)

/-! ## `types::safe<long long>` -/

namespace safe

/-- Modelled from the spec: `types/safe.h` is absent. Construction of a
`safe<long long>` from an `unsigned long long` / `size_t` / `unsigned` value:
no silent truncation, so a value that does not fit is a range error. -/
def of_unsigned (x : Nat) : Except Failure Int :=
  if fits_long_long x then .ok x else .error .range_error

/-- Modelled from the spec: `types/safe.h` is absent. Construction of a
`safe<long long>` from a signed 64-bit count. -/
def of_rep (x : Int) : Except Failure Int :=
  if fits_long_long x then .ok x else .error .range_error

/-- Modelled from the spec: `types/safe.h` is absent. `safe<long long>`
multiplication: the true product, or an overflow error when it is not
representable. -/
def mul (a b : Int) : Except Failure Int :=
  if fits_long_long (a * b) then .ok (a * b) else .error .overflow_error

/-- Modelled from the spec: `types/safe.h` is absent. `safe<long long>`
addition: the true sum, or an overflow error when it is not representable. -/
def add (a b : Int) : Except Failure Int :=
  if fits_long_long (a + b) then .ok (a + b) else .error .overflow_error

/-- Modelled from the spec: `types/safe.h` is absent. `safe<long long>`
division: truncating, checked for a zero divisor only. -/
def div (a b : Int) : Except Failure Int :=
  if b = 0 then .error .divide_by_zero else .ok (Int.tdiv a b)

/-- Modelled from the spec: `types/safe.h` is absent. The cast of a
`safe<long long>` to `unsigned` / `uint32_t`: checked, a value outside
`[0, 2 ^ 32)` is a range error. -/
def cast_unsigned (a : Int) : Except Failure Nat :=
  if 0 ≤ a ∧ a ≤ UINT32_MAX then .ok a.toNat else .error .range_error

end safe

/-! ## `coin::times::block::clock` -/

namespace clock

/-- The source's `clock::to_nTime`: the seconds count of the time point,
returned as `unsigned`. -/
def to_nTime (tp : Int) : Nat := to_unsigned tp

/-- The source's `clock::from_nTime`: `time_point(seconds(nTime))`. -/
def from_nTime (nTime : Nat) : Int := (nTime : Int)

end clock

/-! ## Calendar -/

/-- Modelled from the spec: `types/time.h` is absent.
`times::howard_hinnant::days_from_civil`, the day count since 1970-01-01 of a
date of the proleptic Gregorian calendar. -/
def days_from_civil (y0 : Int) (m d : Nat) : Int :=
  let y := if m ≤ 2 then y0 - 1 else y0
  let era := (if 0 ≤ y then y else y - 399).tdiv 400
  let yoe := (y - era * 400).toNat
  let doy := (153 * (if m > 2 then m - 3 else m + 9) + 2) / 5 + d - 1
  let doe := yoe * 365 + yoe / 4 - yoe / 100 + doy
  era * 146097 + (doe : Int) - 719468

/-! ## `GetNfactor` -/

/-- Modelled from the spec: `pars.h` is absent. The configuration
`pars::block_period_by_design`, the pair of designed block periods, each a
count of whole seconds. -/
structure pars where
  /-- the pair `(first, second)` of block periods, in seconds -/
  block_period_by_design : Int × Int
  deriving DecidableEq, Repr

/-- The test configuration of the scenarios: block periods of 60 s and 60 s. -/
def test_pars : pars := ⟨(60, 60)⟩

namespace GetNfactor

/-- Seconds in one tick of `avg_months`, the ratio `3600 * 24 * 30`. -/
def avg_months : Int := 3600 * 24 * 30

/-- Seconds in one tick of `days`, the ratio `3600 * 24`. -/
def days : Int := 3600 * 24

/-- The source's `birth_time`: `time_point(days(days_from_civil(2014, 05, 05)))`,
in seconds. -/
def birth_time : Int := days_from_civil 2014 5 5 * days

/-- The source's `moore_period = avg_months(18)`, as its tick count. -/
def moore_period : Int := 18

/-- The source's `initial_r`. -/
def initial_r : Nat := 8

/-- The source's `birth_cores`. -/
def birth_cores : Nat := 2

/-- The source's `cell_access_time = nanoseconds(20)`, as its tick count. -/
def cell_access_time : Int := 20

/-- The block time after the clamp `if (block_time < birth_time) block_time = birth_time`. -/
def clamp (block_time : Int) : Int :=
  if block_time < birth_time then birth_time else block_time

/-- The quotient `duration_cast<avg_months>(block_time - birth_time) / moore_period`
in `clock::rep`, before it is narrowed to `int`. -/
def moore_steps_rep (block_time : Int) : Int :=
  (Int.tdiv (block_time - birth_time) avg_months).tdiv moore_period

/-- The source's `const int moore_steps`. -/
def moore_steps (block_time : Int) : Int := to_int (moore_steps_rep block_time)

/-- The source's `last_step_time = birth_time + moore_steps * moore_period`, in seconds. -/
def last_step_time (moore_steps : Int) : Int :=
  birth_time + moore_steps * moore_period * avg_months

/-- The source's `last_r_step_time = last_step_time - moore_period * (moore_steps % 5)`,
in seconds. -/
def last_r_step_time (moore_steps : Int) : Int :=
  last_step_time moore_steps - moore_period * (Int.tmod moore_steps 5) * avg_months

/-- The count passed to `memory_size_t(...)` for `max_mem`:
`std::min(first, second) / 6 / cell_access_time`. The quotient of the two
durations is taken in their common unit, nanoseconds, so the seconds count is
first multiplied by `10 ^ 9` in `clock::rep`. -/
def max_mem_count (cfg : pars) : Except Failure Int :=
  let shortest := min cfg.block_period_by_design.1 cfg.block_period_by_design.2
  let sixth := Int.tdiv shortest 6
  if fits_long_long (sixth * 1000000000) then
    .ok (Int.tdiv (sixth * 1000000000) cell_access_time)
  else .error .undefined_behaviour

/-- The loop `while (mem / memory_size_t(p) > max_mem) p *= 2;` run for at most
`fuel` tests of its condition. -/
def p_loop (mem max_mem : Int) : Nat → Int → Except Failure Int
  | 0, _ => .error .out_of_fuel
  | fuel + 1, p => do
    let q ← safe.div mem p
    if q > max_mem then do
      let p2 ← safe.mul p 2
      p_loop mem max_mem fuel p2
    else
      .ok p

/-- Iteration budget given to `p_loop`: `p` starts at 1 and doubles, so its
64th doubling cannot be representable. -/
def p_loop_fuel : Nat := 64

/-- The local variables of `GetNfactor` at its `return`. -/
structure Locals where
  /-- the block time after the clamp -/
  block_time : Int
  /-- the source's `moore_steps` -/
  moore_steps : Int
  /-- the source's `mem` after the two ceiling clamps, as used for `N` -/
  mem : Int
  /-- the source's `p` after the loop -/
  p : Int
  /-- the source's `moore_cores` -/
  moore_cores : Nat
  /-- the source's `r0` -/
  r0 : Int
  /-- the source's `r` -/
  r : Int
  /-- the source's `N` -/
  N : Int
  deriving DecidableEq, Repr

/-- The body of `GetNfactor` from the clamp to the `length_error` test, as a
function of the block time given by the caller, statement by statement in the
order of the source. The differences and sums of time points are taken in
`Int`: for a step count that the narrowing to `int` left non-negative they stay
inside `clock::rep` (`time_arithmetic_fits`), and a run with a negative step
count returns no tuple (`trace_r_facts`). -/
def locals (cfg : pars) (block_time0 : Int) : Except Failure Locals := do
  let MiB ← safe.mul 1024 1024
  let block_time := clamp block_time0
  let moore_steps := moore_steps block_time
  let p : Int := 1
  let initial_mem ← safe.mul 1 MiB
  let shifted ← shift_left 64 1 moore_steps
  let moor_mem_multiplier ← safe.of_unsigned shifted
  let mem ← safe.mul initial_mem moor_mem_multiplier
  if mem < initial_mem then .error .assertion else
  let birth_total_memory ← safe.mul 128 MiB
  let count ← max_mem_count cfg
  let max_mem ← safe.of_rep count
  let p ← p_loop mem max_mem p_loop_fuel p
  let cores ← shift_left 64 birth_cores moore_steps
  let moore_cores := if cores < birth_cores then birth_cores else cores
  let moore_total_memory ← safe.mul birth_total_memory moor_mem_multiplier
  if moore_total_memory < birth_total_memory then .error .assertion else
  let mem := if mem > moore_total_memory then moore_total_memory else mem
  let per_mem ← safe.div mem initial_mem
  let cores_s ← safe.of_unsigned moore_cores
  let mem ← (if per_mem > cores_s then safe.mul initial_mem cores_s else .ok mem)
  let r0u ← shift_left 32 initial_r (Int.tdiv moore_steps 5)
  let r0 ← safe.of_unsigned r0u
  let since := block_time - last_r_step_time moore_steps
  let scaled ← safe.mul r0 since
  let grown ← safe.div scaled (5 * moore_period * avg_months)
  let r ← safe.add r0 grown
  let d1 ← safe.mul 128 r0
  let d ← safe.mul d1 p
  let N ← safe.div mem d
  if N > UINT32_MAX then .error .length_error else
  .ok ⟨block_time, moore_steps, mem, p, moore_cores, r0, r, N⟩

/-- The local variables of `GetNfactor` right after the final division
`const memory_size_t N = mem / (memory_size_t(128LL) * r0 * p)`, before the
test `N > std::numeric_limits<uint32_t>::max()`, with the values `mem` went
through. -/
structure Trace where
  /-- the block time after the clamp -/
  block_time : Int
  /-- the source's `moore_steps` -/
  moore_steps : Int
  /-- the source's `initial_mem` -/
  initial_mem : Int
  /-- the source's `moor_mem_multiplier`, the converted `1ULL << moore_steps` -/
  moor_mem_multiplier : Int
  /-- the source's `mem` as first computed, `initial_mem * moor_mem_multiplier` -/
  mem_grown : Int
  /-- the source's `max_mem` -/
  max_mem : Int
  /-- the source's `p` after the loop -/
  p : Int
  /-- the value of `birth_cores << moore_steps` -/
  cores_shifted : Nat
  /-- the source's `moore_cores` after `if (moore_cores < birth_cores)` -/
  moore_cores : Nat
  /-- the source's `moore_total_memory` -/
  moore_total_memory : Int
  /-- the source's `mem` after `if (mem > moore_total_memory)` -/
  mem_capped : Int
  /-- the source's `mem` after `if (mem / initial_mem > memory_size_t(moore_cores))`,
  the dividend of the final division -/
  mem : Int
  /-- the source's `r0` -/
  r0 : Int
  /-- the source's `r` -/
  r : Int
  /-- the source's `N` -/
  N : Int
  deriving DecidableEq, Repr

/-- The body of `GetNfactor` from the clamp through the final division, the
same statements as `locals` without the closing `length_error` test; it keeps
the intermediate values of `mem`. -/
def trace (cfg : pars) (block_time0 : Int) : Except Failure Trace := do
  let MiB ← safe.mul 1024 1024
  let block_time := clamp block_time0
  let moore_steps := moore_steps block_time
  let p : Int := 1
  let initial_mem ← safe.mul 1 MiB
  let shifted ← shift_left 64 1 moore_steps
  let moor_mem_multiplier ← safe.of_unsigned shifted
  let mem_grown ← safe.mul initial_mem moor_mem_multiplier
  if mem_grown < initial_mem then .error .assertion else
  let birth_total_memory ← safe.mul 128 MiB
  let count ← max_mem_count cfg
  let max_mem ← safe.of_rep count
  let p ← p_loop mem_grown max_mem p_loop_fuel p
  let cores ← shift_left 64 birth_cores moore_steps
  let moore_cores := if cores < birth_cores then birth_cores else cores
  let moore_total_memory ← safe.mul birth_total_memory moor_mem_multiplier
  if moore_total_memory < birth_total_memory then .error .assertion else
  let mem_capped := if mem_grown > moore_total_memory then moore_total_memory else mem_grown
  let per_mem ← safe.div mem_capped initial_mem
  let cores_s ← safe.of_unsigned moore_cores
  let mem ← (if per_mem > cores_s then safe.mul initial_mem cores_s else .ok mem_capped)
  let r0u ← shift_left 32 initial_r (Int.tdiv moore_steps 5)
  let r0 ← safe.of_unsigned r0u
  let since := block_time - last_r_step_time moore_steps
  let scaled ← safe.mul r0 since
  let grown ← safe.div scaled (5 * moore_period * avg_months)
  let r ← safe.add r0 grown
  let d1 ← safe.mul 128 r0
  let d ← safe.mul d1 p
  let N ← safe.div mem d
  .ok ⟨block_time, moore_steps, initial_mem, moor_mem_multiplier, mem_grown, max_mem, p,
    cores, moore_cores, moore_total_memory, mem_capped, mem, r0, r, N⟩

/-- The closing test of the body, `if (N > max) throw std::length_error(...)`,
applied to a trace; on success the locals at the `return`. -/
def length_check (tr : Trace) : Except Failure Locals :=
  if tr.N > UINT32_MAX then .error .length_error else
  .ok ⟨tr.block_time, tr.moore_steps, tr.mem, tr.p, tr.moore_cores, tr.r0, tr.r, tr.N⟩

end GetNfactor

/-- The source's `GetNfactor`: the tuple `(N, r, p)` for a block time, or the
failure that ends the call. The three casts of the `return` are checked casts
of `safe<long long>` values; each can only fail with a range error, so the
order in which `make_tuple` evaluates them does not show in the outcome. -/
def GetNfactor (cfg : pars) (block_time : Int) : Except Failure (Nat × Nat × Nat) := do
  let l ← GetNfactor.locals cfg block_time
  let N ← safe.cast_unsigned l.N
  let r ← safe.cast_unsigned l.r
  let p ← safe.cast_unsigned l.p
  .ok (N, r, p)

/-! ## Sequencing in `Except` -/

/-- A sequenced step that ends with a value: the first computation gave a value
and the continuation, run on it, gave the result. -/
theorem bind_ok_inv {ε α β : Type} {f : α → Except ε β} {res : β} :
    ∀ {x : Except ε α}, (x >>= f) = Except.ok res →
      ∃ v, x = Except.ok v ∧ f v = Except.ok res
  | Except.ok v, h => ⟨v, rfl, h⟩
  | Except.error _, h => by cases h

/-- A guarded step that ends with a value: the guard did not fire. -/
theorem guard_ok_inv {ε β : Type} {c : Prop} [Decidable c] {e : ε} {x : Except ε β} {b : β}
    (h : (if c then .error e else x) = .ok b) : ¬ c ∧ x = .ok b := by
  by_cases hc : c
  · rw [if_pos hc] at h; cases h
  · rw [if_neg hc] at h; exact ⟨hc, h⟩


theorem ok_bind {ε α β : Type} (a : α) (f : α → Except ε β) :
    ((Except.ok a : Except ε α) >>= f) = f a := rfl

theorem error_bind {ε α β : Type} (e : ε) (f : α → Except ε β) :
    ((Except.error e : Except ε α) >>= f) = .error e := rfl


theorem guard_bind {ε α β : Type} {c : Prop} [Decidable c] (e : ε) (x : Except ε α)
    (g : α → Except ε β) :
    ((if c then (Except.error e : Except ε α) else x) >>= g)
      = if c then Except.error e else (x >>= g) := by
  split <;> rfl


theorem bind_ne_error {ε α β : Type} {x : Except ε α} {f : α → Except ε β} {e : ε}
    (hx : x ≠ .error e) (hf : ∀ a, f a ≠ .error e) : (x >>= f) ≠ .error e := by
  cases x with
  | error e2 =>
    intro h
    change (Except.error e2 : Except ε β) = .error e at h
    cases h
    exact hx rfl
  | ok a => exact hf a

theorem guard_ne_error {ε β : Type} {c : Prop} [Decidable c] {e1 e : ε} {x : Except ε β}
    (he : e1 ≠ e) (hx : x ≠ .error e) : (if c then .error e1 else x) ≠ .error e := by
  split
  · intro h; cases h; exact he rfl
  · exact hx


theorem bind_ok_of {ε α β : Type} {x : Except ε α} {f : α → Except ε β} (a : α)
    (hx : x = .ok a) (hf : ∃ b, f a = .ok b) : ∃ b, (x >>= f) = .ok b := by
  subst hx
  exact hf

theorem guard_ok_of {ε β : Type} {c : Prop} [Decidable c] {e : ε} {x : Except ε β}
    (hc : ¬ c) (hx : ∃ b, x = .ok b) : ∃ b, (if c then .error e else x) = .ok b := by
  rw [if_neg hc]
  exact hx

/-! ## The primitives -/

theorem safe_mul_ok_inv {a b c : Int} (h : safe.mul a b = .ok c) :
    c = a * b ∧ fits_long_long (a * b) := by
  unfold safe.mul at h
  split at h
  · next hf => cases h; exact ⟨rfl, hf⟩
  · cases h

theorem safe_add_ok_inv {a b c : Int} (h : safe.add a b = .ok c) :
    c = a + b ∧ fits_long_long (a + b) := by
  unfold safe.add at h
  split at h
  · next hf => cases h; exact ⟨rfl, hf⟩
  · cases h

theorem safe_div_ok_inv {a b c : Int} (h : safe.div a b = .ok c) :
    c = Int.tdiv a b ∧ b ≠ 0 := by
  unfold safe.div at h
  split at h
  · cases h
  · next hb => cases h; exact ⟨rfl, hb⟩

theorem safe_of_unsigned_ok_inv {x : Nat} {c : Int} (h : safe.of_unsigned x = .ok c) :
    c = (x : Int) ∧ fits_long_long (x : Int) := by
  unfold safe.of_unsigned at h
  split at h
  · next hf => cases h; exact ⟨rfl, hf⟩
  · cases h

theorem safe_of_rep_ok_inv {x c : Int} (h : safe.of_rep x = .ok c) :
    c = x ∧ fits_long_long x := by
  unfold safe.of_rep at h
  split at h
  · next hf => cases h; exact ⟨rfl, hf⟩
  · cases h

theorem safe_cast_unsigned_ok_inv {a : Int} {u : Nat} (h : safe.cast_unsigned a = .ok u) :
    (u : Int) = a ∧ 0 ≤ a ∧ a ≤ UINT32_MAX := by
  unfold safe.cast_unsigned at h
  split at h
  · next hf => cases h; exact ⟨Int.toNat_of_nonneg hf.1, hf.1, hf.2⟩
  · cases h

theorem safe_mul_ok {a b : Int} (h : fits_long_long (a * b)) : safe.mul a b = .ok (a * b) := by
  unfold safe.mul; rw [if_pos h]

theorem safe_add_ok {a b : Int} (h : fits_long_long (a + b)) : safe.add a b = .ok (a + b) := by
  unfold safe.add; rw [if_pos h]

theorem safe_div_ok {a b : Int} (h : b ≠ 0) : safe.div a b = .ok (Int.tdiv a b) := by
  unfold safe.div; rw [if_neg h]

theorem safe_of_unsigned_ok {x : Nat} (h : fits_long_long (x : Int)) :
    safe.of_unsigned x = .ok (x : Int) := by
  unfold safe.of_unsigned; rw [if_pos h]

theorem safe_of_rep_ok {x : Int} (h : fits_long_long x) : safe.of_rep x = .ok x := by
  unfold safe.of_rep; rw [if_pos h]

theorem fits_of_bounds {x : Int} (h0 : 0 ≤ x) (h1 : x ≤ 9223372036854775807) :
    fits_long_long x := by
  unfold fits_long_long LLONG_MAX LLONG_MIN
  constructor <;> omega

theorem shift_left_ok_inv {w x : Nat} {n : Int} {y : Nat} (h : shift_left w x n = .ok y) :
    y = x * 2 ^ (n % (w : Int)).toNat % 2 ^ w := by
  unfold shift_left at h
  cases h
  rfl

/-- A shift whose count is below the width and whose true value fits the width
yields that value. -/
theorem shift_left_exact {w x n : Nat} (hn : n < w) (hlt : x * 2 ^ n < 2 ^ w) :
    shift_left w x (n : Int) = .ok (x * 2 ^ n) := by
  unfold shift_left
  rw [Int.emod_eq_of_lt (by omega) (by omega), Int.toNat_ofNat, Nat.mod_eq_of_lt hlt]

/-- The 32-bit shift of `initial_r`: the count is read modulo 32, and a reduced
count of 29 or more shifts every bit of 8 out of the operand. -/
theorem shift_left_initial_r (n : Int) :
    (n % 32 ≤ 28 ∧ shift_left 32 8 n = .ok (8 * 2 ^ (n % 32).toNat)) ∨
    (29 ≤ n % 32 ∧ shift_left 32 8 n = .ok 0) := by
  obtain ⟨k, hk⟩ : ∃ k : Nat, n % 32 = (k : Int) :=
    ⟨(n % 32).toNat, (Int.toNat_of_nonneg (Int.emod_nonneg n (by norm_num))).symm⟩
  have hk32 : k < 32 := by omega
  unfold shift_left
  rw [Nat.cast_ofNat, hk, Int.toNat_ofNat]
  by_cases h28 : k ≤ 28
  · left
    refine ⟨by omega, ?_⟩
    have hp : 2 ^ k ≤ 2 ^ 28 := Nat.pow_le_pow_right (by norm_num) h28
    rw [Nat.mod_eq_of_lt (by norm_num at hp ⊢; omega)]
  · right
    refine ⟨by omega, ?_⟩
    have : k = 29 ∨ k = 30 ∨ k = 31 := by omega
    rcases this with rfl | rfl | rfl <;> rfl

/-! ## The clamp, the step count and the time arithmetic -/

namespace GetNfactor


theorem birth_time_eq : birth_time = 1399248000 := by decide

theorem avg_months_eq : avg_months = 2592000 := by decide

theorem clamp_ge (t : Int) : birth_time ≤ clamp t := by
  unfold clamp; split <;> omega

theorem clamp_of_le {t : Int} (h : t ≤ birth_time) : clamp t = birth_time := by
  unfold clamp; split <;> omega

theorem clamp_of_ge {t : Int} (h : birth_time ≤ t) : clamp t = t := by
  unfold clamp; split <;> omega

/-- For a block time at or after the birth time the two truncating divisions
of `moore_steps` are floor divisions. -/
theorem moore_steps_rep_eq {bt : Int} (h : birth_time ≤ bt) :
    moore_steps_rep bt = (bt - 1399248000) / 2592000 / 18 := by
  rw [birth_time_eq] at h
  unfold moore_steps_rep
  rw [birth_time_eq, avg_months_eq, moore_period]
  have h1 : Int.tdiv (bt - 1399248000) 2592000 = (bt - 1399248000) / 2592000 :=
    Int.tdiv_eq_ediv (by omega) (by omega)
  rw [h1]
  exact Int.tdiv_eq_ediv (by omega) (by omega)

theorem moore_steps_eq {bt : Int} (h : birth_time ≤ bt) :
    moore_steps bt = ((bt - 1399248000) / 2592000 / 18 + 2 ^ 31) % 2 ^ 32 - 2 ^ 31 := by
  unfold moore_steps to_int
  rw [moore_steps_rep_eq h]

/-- For a step count that the narrowing to `int` left non-negative, the time
arithmetic of the body stays inside the signed 64-bit `clock::rep` for every
block time point. -/
theorem time_arithmetic_fits {bt s : Int} (hb : birth_time ≤ bt) (hfit : fits_long_long bt)
    (hs0 : 0 ≤ s) (hs31 : s < 2 ^ 31) :
    fits_long_long (bt - birth_time) ∧ fits_long_long (s * moore_period * avg_months) ∧
    fits_long_long (last_step_time s) ∧
    fits_long_long (moore_period * (Int.tmod s 5) * avg_months) ∧
    fits_long_long (last_r_step_time s) ∧
    fits_long_long (bt - last_r_step_time s) := by
  unfold last_r_step_time last_step_time
  rw [Int.tmod_eq_emod hs0 (by omega)]
  rw [birth_time_eq] at hb ⊢
  rw [avg_months_eq, moore_period]
  unfold fits_long_long LLONG_MAX LLONG_MIN at *
  refine ⟨?_, ?_, ?_, ?_, ?_, ?_⟩ <;> constructor <;> omega

/-- The time since the last doubling of `r0`, in terms of the block time. -/
theorem since_eq {bt s : Int} (hs : 0 ≤ s) :
    bt - last_r_step_time s = bt - 1399248000 - (s - s % 5) * 46656000 := by
  unfold last_r_step_time last_step_time
  rw [birth_time_eq, avg_months_eq, moore_period, Int.tmod_eq_emod hs (by omega)]
  ring

/-- The truncating remainder `moore_steps % 5` of the source, for either sign
of the step count. -/
theorem tmod_five (s : Int) :
    (0 ≤ s ∧ Int.tmod s 5 = s % 5) ∨ (s < 0 ∧ -4 ≤ Int.tmod s 5 ∧ Int.tmod s 5 ≤ 0) := by
  by_cases hs : 0 ≤ s
  · exact Or.inl ⟨hs, Int.tmod_eq_emod hs (by norm_num)⟩
  · right
    have hdiv : Int.tdiv s 5 = -((-s) / 5) := by
      have h1 : Int.tdiv s 5 = -(Int.tdiv (-s) 5) := by rw [Int.neg_tdiv, neg_neg]
      rw [h1, Int.tdiv_eq_ediv (by omega) (by norm_num)]
    have hmod := Int.tmod_add_tdiv s 5
    rw [hdiv] at hmod
    refine ⟨by omega, ?_, ?_⟩ <;> omega

/-- The time since the last doubling of `r0`, for any step count. -/
theorem since_eq_tmod (bt s : Int) :
    bt - last_r_step_time s = bt - 1399248000 - (s - Int.tmod s 5) * 46656000 := by
  unfold last_r_step_time last_step_time
  rw [birth_time_eq, avg_months_eq, moore_period]
  ring

end GetNfactor


theorem GetNfactor.clamp_mono {t1 t2 : Int} (h : t1 ≤ t2) :
    GetNfactor.clamp t1 ≤ GetNfactor.clamp t2 := by
  unfold GetNfactor.clamp
  split <;> split <;> omega

/-- The count of `max_mem` is a quotient of a 64-bit value by 20, so it is a
64-bit value. -/
theorem GetNfactor.max_mem_count_fits {cfg : pars} {mm : Int}
    (h : GetNfactor.max_mem_count cfg = .ok mm) : fits_long_long mm := by
  unfold GetNfactor.max_mem_count at h
  dsimp only at h
  split at h
  · next hf =>
    cases h
    rw [GetNfactor.cell_access_time]
    generalize (min cfg.block_period_by_design.1 cfg.block_period_by_design.2).tdiv 6
      * 1000000000 = x at *
    unfold fits_long_long LLONG_MAX LLONG_MIN at *
    by_cases hx : 0 ≤ x
    · rw [Int.tdiv_eq_ediv hx (by norm_num)]
      constructor <;> omega
    · have hneg : x.tdiv 20 = -((-x).tdiv 20) := by rw [Int.neg_tdiv, neg_neg]
      rw [hneg, Int.tdiv_eq_ediv (by omega) (by norm_num)]
      constructor <;> omega
  · cases h

/-- The body of `GetNfactor` is its trace followed by the length test. -/
theorem GetNfactor.locals_eq_trace (cfg : pars) (t : Int) :
    GetNfactor.locals cfg t = (GetNfactor.trace cfg t >>= GetNfactor.length_check) := by
  unfold GetNfactor.locals GetNfactor.trace GetNfactor.length_check
  simp only [bind_assoc, guard_bind, ok_bind]

/-- What a run of the body that reaches the final division fixes about the
values on its way. The 64-bit shifts read the step count modulo 64, the 32-bit
shift reads `moore_steps / 5` modulo 32; the reduced step count is at most 35,
the ceiling clamps leave `mem` alone, and `r0` is not zero. -/
theorem GetNfactor.trace_ok_inv {cfg : pars} {t : Int} {tr : GetNfactor.Trace}
    (h : GetNfactor.trace cfg t = .ok tr) :
    tr.block_time = GetNfactor.clamp t ∧
    tr.moore_steps = GetNfactor.moore_steps (GetNfactor.clamp t) ∧
    tr.moore_steps % 64 ≤ 35 ∧
    tr.initial_mem = 2 ^ 20 ∧
    tr.moor_mem_multiplier = 2 ^ (tr.moore_steps % 64).toNat ∧
    tr.mem_grown = 2 ^ 20 * 2 ^ (tr.moore_steps % 64).toNat ∧
    GetNfactor.max_mem_count cfg = .ok tr.max_mem ∧
    GetNfactor.p_loop tr.mem_grown tr.max_mem GetNfactor.p_loop_fuel 1 = .ok tr.p ∧
    tr.cores_shifted = 2 * 2 ^ (tr.moore_steps % 64).toNat ∧
    tr.moore_cores = tr.cores_shifted ∧
    tr.moore_total_memory = 2 ^ 27 * 2 ^ (tr.moore_steps % 64).toNat ∧
    tr.mem_capped = tr.mem_grown ∧
    tr.mem = tr.mem_grown ∧
    (Int.tdiv tr.moore_steps 5 % 32 ≤ 28 ∧
      shift_left 32 GetNfactor.initial_r (Int.tdiv tr.moore_steps 5)
        = .ok (8 * 2 ^ (Int.tdiv tr.moore_steps 5 % 32).toNat) ∧
      tr.r0 = 8 * 2 ^ (Int.tdiv tr.moore_steps 5 % 32).toNat) ∧
    tr.r = tr.r0 + Int.tdiv
      (tr.r0 * (tr.block_time - GetNfactor.last_r_step_time tr.moore_steps))
      (5 * GetNfactor.moore_period * GetNfactor.avg_months) ∧
    tr.N = Int.tdiv tr.mem (128 * tr.r0 * tr.p) := by
  unfold GetNfactor.trace at h
  obtain ⟨MiB, hMiB, h⟩ := bind_ok_inv h
  obtain ⟨initial_mem, hinit, h⟩ := bind_ok_inv h
  obtain ⟨shifted, hsh, h⟩ := bind_ok_inv h
  obtain ⟨mult, hmult, h⟩ := bind_ok_inv h
  obtain ⟨mem0, hmem0, h⟩ := bind_ok_inv h
  obtain ⟨-, h⟩ := guard_ok_inv h
  obtain ⟨btm, hbtm, h⟩ := bind_ok_inv h
  obtain ⟨count, hcount, h⟩ := bind_ok_inv h
  obtain ⟨max_mem, hmax, h⟩ := bind_ok_inv h
  obtain ⟨p, hp, h⟩ := bind_ok_inv h
  obtain ⟨cores, hcores, h⟩ := bind_ok_inv h
  obtain ⟨mtm, hmtm, h⟩ := bind_ok_inv h
  obtain ⟨-, h⟩ := guard_ok_inv h
  obtain ⟨per_mem, hper, h⟩ := bind_ok_inv h
  obtain ⟨cores_s, hcs, h⟩ := bind_ok_inv h
  obtain ⟨mem, hmem, h⟩ := bind_ok_inv h
  obtain ⟨r0u, hr0u, h⟩ := bind_ok_inv h
  obtain ⟨r0, hr0, h⟩ := bind_ok_inv h
  obtain ⟨scaled, hscaled, h⟩ := bind_ok_inv h
  obtain ⟨grown, hgrown, h⟩ := bind_ok_inv h
  obtain ⟨r, hr, h⟩ := bind_ok_inv h
  obtain ⟨d1, hd1, h⟩ := bind_ok_inv h
  obtain ⟨d, hd, h⟩ := bind_ok_inv h
  obtain ⟨N, hN, h⟩ := bind_ok_inv h
  cases h
  generalize GetNfactor.moore_steps (GetNfactor.clamp t) = s at *
  obtain ⟨rfl, -⟩ := safe_mul_ok_inv hMiB
  obtain ⟨rfl, -⟩ := safe_mul_ok_inv hinit
  have hshifted := shift_left_ok_inv hsh
  obtain ⟨rfl, -⟩ := safe_of_unsigned_ok_inv hmult
  obtain ⟨rfl, -⟩ := safe_mul_ok_inv hmem0
  obtain ⟨rfl, -⟩ := safe_mul_ok_inv hbtm
  obtain ⟨rfl, -⟩ := safe_of_rep_ok_inv hmax
  have hcores_eq := shift_left_ok_inv hcores
  obtain ⟨rfl, hfit⟩ := safe_mul_ok_inv hmtm
  obtain ⟨rfl, -⟩ := safe_div_ok_inv hper
  obtain ⟨rfl, -⟩ := safe_of_unsigned_ok_inv hcs
  obtain ⟨rfl, -⟩ := safe_of_unsigned_ok_inv hr0
  obtain ⟨rfl, -⟩ := safe_mul_ok_inv hscaled
  obtain ⟨rfl, -⟩ := safe_div_ok_inv hgrown
  obtain ⟨rfl, -⟩ := safe_add_ok_inv hr
  obtain ⟨rfl, -⟩ := safe_mul_ok_inv hd1
  obtain ⟨rfl, -⟩ := safe_mul_ok_inv hd
  obtain ⟨rfl, hd0⟩ := safe_div_ok_inv hN
  -- the reduced shift count and the multiplier
  obtain ⟨n, hn⟩ : ∃ n : Nat, s % 64 = (n : Int) :=
    ⟨(s % 64).toNat, (Int.toNat_of_nonneg (Int.emod_nonneg s (by norm_num))).symm⟩
  have hn64 : n < 64 := by omega
  have hpow64 : 2 ^ n < 2 ^ 64 := Nat.pow_lt_pow_right (by norm_num) hn64
  simp only [Nat.cast_ofNat, hn, Int.toNat_ofNat, one_mul] at hshifted hcores_eq ⊢
  rw [Nat.mod_eq_of_lt hpow64] at hshifted
  subst hshifted
  have hn35 : n ≤ 35 := by
    by_contra hcon
    have h36 : 2 ^ 36 ≤ 2 ^ n := Nat.pow_le_pow_right (by norm_num) (by omega)
    unfold fits_long_long LLONG_MAX LLONG_MIN at hfit
    have h36z : ((2 ^ 36 : Nat) : Int) ≤ ((2 ^ n : Nat) : Int) := by exact_mod_cast h36
    norm_num at h36z hfit
    omega
  have hpow35 : 2 ^ n ≤ 2 ^ 35 := Nat.pow_le_pow_right (by norm_num) hn35
  have hpos : 1 ≤ 2 ^ n := Nat.one_le_two_pow
  have hcores2 : cores = 2 * 2 ^ n := by
    rw [hcores_eq, GetNfactor.birth_cores]
    apply Nat.mod_eq_of_lt
    norm_num at hpow35 ⊢
    omega
  subst hcores2
  have hmc : (if 2 * 2 ^ n < GetNfactor.birth_cores then GetNfactor.birth_cores
      else 2 * 2 ^ n) = 2 * 2 ^ n := by
    rw [GetNfactor.birth_cores]; split <;> omega
  rw [hmc] at hmem ⊢
  have hcap : (if (1024 * 1024 : Int) * ((2 ^ n : Nat) : Int)
        > 128 * (1024 * 1024) * ((2 ^ n : Nat) : Int)
      then 128 * (1024 * 1024) * ((2 ^ n : Nat) : Int)
      else 1024 * 1024 * ((2 ^ n : Nat) : Int)) = 1024 * 1024 * ((2 ^ n : Nat) : Int) := by
    rw [if_neg (by omega)]
  have hmem_eq : mem = 1024 * 1024 * ((2 ^ n : Nat) : Int) := by
    generalize (2 ^ n : Nat) = m at *
    have h1 : ¬ (1 * (1024 * 1024) * (m : Int) > 128 * (1024 * 1024) * (m : Int)) := by omega
    rw [if_neg h1] at hmem
    have h2 : Int.tdiv (1 * (1024 * 1024) * (m : Int)) (1 * (1024 * 1024)) = (m : Int) := by
      rw [Int.tdiv_eq_ediv (by omega) (by omega)]
      omega
    rw [h2] at hmem
    have h3 : ¬ ((m : Int) > ((2 * m : Nat) : Int)) := by push_cast; omega
    rw [if_neg h3] at hmem
    cases hmem
    norm_num
  -- the mixing width: a zero `r0` would have stopped the final division
  have hr0ne : r0u ≠ 0 := by
    intro hz
    apply hd0
    rw [hz]
    simp
  have hr0facts : Int.tdiv s 5 % 32 ≤ 28 ∧
      shift_left 32 GetNfactor.initial_r (Int.tdiv s 5)
        = .ok (8 * 2 ^ (Int.tdiv s 5 % 32).toNat) := by
    rcases shift_left_initial_r (Int.tdiv s 5) with ⟨h28, hsl⟩ | ⟨-, hsl⟩
    · exact ⟨h28, hsl⟩
    · exfalso
      rw [GetNfactor.initial_r, hsl] at hr0u
      exact hr0ne (Except.ok.inj hr0u).symm
  have hr0u2 : r0u = 8 * 2 ^ (Int.tdiv s 5 % 32).toNat := by
    rw [hr0facts.2] at hr0u
    exact (Except.ok.inj hr0u).symm
  subst hr0u2
  rw [one_mul] at hp
  refine ⟨trivial, trivial, by omega, by norm_num, by push_cast; rfl,
    by push_cast; norm_num, hcount, hp, rfl, rfl, by push_cast; norm_num, hcap, hmem_eq,
    ⟨hr0facts.1, hr0facts.2, by push_cast; rfl⟩, trivial, trivial⟩

/-- A successful body is a trace that passed the length test. -/
theorem GetNfactor.locals_ok_trace {cfg : pars} {t : Int} {l : GetNfactor.Locals}
    (h : GetNfactor.locals cfg t = .ok l) :
    ∃ tr, GetNfactor.trace cfg t = .ok tr ∧ tr.N ≤ UINT32_MAX ∧
      l.block_time = tr.block_time ∧ l.moore_steps = tr.moore_steps ∧ l.mem = tr.mem ∧
      l.p = tr.p ∧ l.r0 = tr.r0 ∧ l.r = tr.r ∧ l.N = tr.N := by
  rw [GetNfactor.locals_eq_trace] at h
  obtain ⟨tr, htr, h⟩ := bind_ok_inv h
  unfold GetNfactor.length_check at h
  obtain ⟨hlen, h⟩ := guard_ok_inv h
  cases h
  exact ⟨tr, htr, not_lt.mp hlen, rfl, rfl, rfl, rfl, rfl, rfl, rfl⟩

/-- A run that reaches the final division with an `r` inside the `unsigned`
range did not wrap the step count on its way to `int`: `moore_steps` is the
non-negative 64-bit quotient, the time since the last doubling of `r0` is
below five Moore periods, and `r` lies between `r0` and `2 * r0`. -/
theorem GetNfactor.trace_r_facts {cfg : pars} {t : Int} {tr : GetNfactor.Trace}
    (h : GetNfactor.trace cfg t = .ok tr) (hr : tr.r ≤ UINT32_MAX) :
    tr.moore_steps = (GetNfactor.clamp t - 1399248000) / 2592000 / 18 ∧
    0 ≤ tr.moore_steps ∧
    0 ≤ tr.block_time - GetNfactor.last_r_step_time tr.moore_steps ∧
    tr.block_time - GetNfactor.last_r_step_time tr.moore_steps < 233280000 ∧
    tr.r = tr.r0
      + tr.r0 * (tr.block_time - GetNfactor.last_r_step_time tr.moore_steps) / 233280000 ∧
    8 ≤ tr.r0 ∧ tr.r0 ≤ tr.r ∧ tr.r < 2 * tr.r0 := by
  obtain ⟨hbt, hms, -, -, -, -, -, -, -, -, -, -, -, ⟨-, -, hr0⟩, hreq, -⟩ :=
    GetNfactor.trace_ok_inv h
  have hge := GetNfactor.clamp_ge t
  rw [GetNfactor.birth_time_eq] at hge
  rw [GetNfactor.moore_steps_eq (GetNfactor.clamp_ge t)] at hms
  have hden : (5 : Int) * GetNfactor.moore_period * GetNfactor.avg_months = 233280000 := by
    rw [GetNfactor.avg_months_eq, GetNfactor.moore_period]; norm_num
  rw [hden, hbt, GetNfactor.since_eq_tmod] at hreq
  rw [hbt, GetNfactor.since_eq_tmod]
  have hr0pos : (8 : Int) ≤ tr.r0 := by
    rw [hr0]
    have : (1 : Int) ≤ 2 ^ (Int.tdiv tr.moore_steps 5 % 32).toNat := one_le_pow₀ (by norm_num)
    omega
  have hq := GetNfactor.tmod_five tr.moore_steps
  generalize Int.tmod tr.moore_steps 5 = q at *
  generalize tr.moore_steps = s at *
  generalize tr.r0 = r0 at *
  generalize GetNfactor.clamp t = bt at *
  unfold UINT32_MAX at hr
  have hsince0 : 0 ≤ bt - 1399248000 - (s - q) * 46656000 := by omega
  have hX0 : 0 ≤ r0 * (bt - 1399248000 - (s - q) * 46656000) :=
    Int.mul_nonneg (by omega) hsince0
  have hX8 : 8 * (bt - 1399248000 - (s - q) * 46656000)
      ≤ r0 * (bt - 1399248000 - (s - q) * 46656000) :=
    Int.mul_le_mul_of_nonneg_right hr0pos hsince0
  rw [Int.tdiv_eq_ediv hX0 (by omega)] at hreq
  have hsteps : s = (bt - 1399248000) / 2592000 / 18 := by
    generalize r0 * (bt - 1399248000 - (s - q) * 46656000) = X at *
    omega
  have hs0 : 0 ≤ s := by omega
  have hlt : bt - 1399248000 - (s - q) * 46656000 < 233280000 := by omega
  have hXlt : r0 * (bt - 1399248000 - (s - q) * 46656000) < r0 * 233280000 :=
    Int.mul_lt_mul_of_pos_left hlt (by omega)
  refine ⟨hsteps, hs0, hsince0, hlt, hreq, hr0pos, ?_, ?_⟩
  · generalize r0 * (bt - 1399248000 - (s - q) * 46656000) = X at *
    omega
  · generalize r0 * (bt - 1399248000 - (s - q) * 46656000) = X at *
    omega

/-! ## The parallelism loop and its budget -/

namespace GetNfactor

/-- Every value the loop returns is its start value times a power of two. -/
theorem p_loop_pow {mem mm : Int} {fuel : Nat} {p0 p : Int}
    (h : p_loop mem mm fuel p0 = .ok p) : ∃ k : Nat, p = p0 * 2 ^ k := by
  induction fuel generalizing p0 with
  | zero => cases h
  | succ f ih =>
    unfold p_loop at h
    obtain ⟨q, -, h⟩ := bind_ok_inv h
    split at h
    · obtain ⟨p2, hp2, h⟩ := bind_ok_inv h
      obtain ⟨rfl, -⟩ := safe_mul_ok_inv hp2
      obtain ⟨k, hk⟩ := ih h
      exact ⟨k + 1, by rw [hk]; ring⟩
    · cases h
      exact ⟨0, by simp⟩

/-- The loop started at a power of two `2 ^ j` with at least `64 - j` tests left
never uses up its budget: it ends by its condition or by the overflow of `p *= 2`. -/
theorem p_loop_budget (mem mm : Int) (fuel j : Nat) (hj : 64 ≤ j + fuel)
    (hfit : fits_long_long (2 ^ j)) :
    p_loop mem mm fuel (2 ^ j) ≠ .error .out_of_fuel := by
  induction fuel generalizing j with
  | zero =>
    exfalso
    have h64 : (2 : Int) ^ 64 ≤ 2 ^ j := pow_le_pow_right₀ (by norm_num) (by omega)
    unfold fits_long_long LLONG_MAX at hfit
    norm_num at h64 hfit
    omega
  | succ f ih =>
    unfold p_loop
    have hne : (2 : Int) ^ j ≠ 0 := pow_ne_zero _ (by norm_num)
    have hdiv : safe.div mem (2 ^ j) = .ok (Int.tdiv mem (2 ^ j)) := by
      unfold safe.div; rw [if_neg hne]
    rw [hdiv]
    show (if Int.tdiv mem (2 ^ j) > mm then
        (safe.mul (2 ^ j) 2 >>= fun p2 => p_loop mem mm f p2) else .ok (2 ^ j)) ≠ _
    split
    · unfold safe.mul
      split
      · next hf =>
        show p_loop mem mm f (2 ^ j * 2) ≠ _
        rw [← pow_succ] at hf ⊢
        exact ih (j + 1) (by omega) hf
      · intro hcon; cases hcon
    · intro hcon; cases hcon

end GetNfactor

/-- The loop run from `p = 2 ^ k`, when every smaller power of two left
`mem / p` above `max_mem`: it ends without failure at the first power of two
that brings `mem / p` down to `max_mem`. -/
theorem GetNfactor.p_loop_run (mem mm : Int) (h0 : 0 ≤ mem) (hfit : mem ≤ LLONG_MAX)
    (hmm : 1 ≤ mm) (fuel : Nat) :
    ∀ k : Nat, 64 ≤ k + fuel → k ≤ 62 → (∀ j : Nat, j < k → mm < Int.tdiv mem (2 ^ j)) →
      ∃ k2 : Nat, k2 ≤ 62 ∧ GetNfactor.p_loop mem mm fuel (2 ^ k) = .ok (2 ^ k2) ∧
        Int.tdiv mem (2 ^ k2) ≤ mm ∧ ∀ j : Nat, j < k2 → mm < Int.tdiv mem (2 ^ j) := by
  induction fuel with
  | zero => intro k hk hk62; omega
  | succ f ih =>
    intro k hk hk62 hprev
    have hpos : (0 : Int) < 2 ^ k := by positivity
    have hdiv : safe.div mem (2 ^ k) = .ok (Int.tdiv mem (2 ^ k)) := by
      unfold safe.div; rw [if_neg (ne_of_gt hpos)]
    unfold GetNfactor.p_loop
    rw [hdiv]
    simp only [ok_bind]
    by_cases hq : Int.tdiv mem (2 ^ k) > mm
    · rw [if_pos hq]
      have hq2 : 2 ≤ mem / 2 ^ k := by
        rw [Int.tdiv_eq_ediv h0 (le_of_lt hpos)] at hq
        omega
      have hmem : (2 : Int) ^ (k + 1) ≤ mem := by
        have := (Int.le_ediv_iff_mul_le hpos).mp hq2
        rw [pow_succ]; linarith
      have hk61 : k + 1 ≤ 62 := by
        by_contra hcon
        have h63 : (2 : Int) ^ 63 ≤ 2 ^ (k + 1) := pow_le_pow_right₀ (by norm_num) (by omega)
        unfold LLONG_MAX at hfit
        norm_num at h63 hfit
        omega
      have hmul : safe.mul (2 ^ k) 2 = .ok (2 ^ (k + 1)) := by
        have h62 : (2 : Int) ^ (k + 1) ≤ 2 ^ 62 := pow_le_pow_right₀ (by norm_num) hk61
        have hp0 : (0 : Int) ≤ 2 ^ (k + 1) := by positivity
        unfold safe.mul fits_long_long LLONG_MAX LLONG_MIN
        rw [← pow_succ, if_pos (by norm_num at h62 ⊢; constructor <;> omega)]
      rw [hmul]
      simp only [ok_bind]
      refine ih (k + 1) (by omega) hk61 ?_
      intro j hj
      by_cases hjk : j < k
      · exact hprev j hjk
      · have : j = k := by omega
        rw [this]; exact hq
    · rw [if_neg hq]
      exact ⟨k, hk62, rfl, not_lt.mp hq, hprev⟩

theorem safe_mul_budget (a b : Int) : safe.mul a b ≠ .error .out_of_fuel := by
  unfold safe.mul; split <;> intro h <;> cases h

theorem safe_add_budget (a b : Int) : safe.add a b ≠ .error .out_of_fuel := by
  unfold safe.add; split <;> intro h <;> cases h

theorem safe_div_budget (a b : Int) : safe.div a b ≠ .error .out_of_fuel := by
  unfold safe.div; split <;> intro h <;> cases h

theorem safe_of_unsigned_budget (x : Nat) : safe.of_unsigned x ≠ .error .out_of_fuel := by
  unfold safe.of_unsigned; split <;> intro h <;> cases h

theorem safe_of_rep_budget (x : Int) : safe.of_rep x ≠ .error .out_of_fuel := by
  unfold safe.of_rep; split <;> intro h <;> cases h

theorem safe_cast_unsigned_budget (x : Int) : safe.cast_unsigned x ≠ .error .out_of_fuel := by
  unfold safe.cast_unsigned; split <;> intro h <;> cases h

theorem shift_left_budget (w x : Nat) (n : Int) : shift_left w x n ≠ .error .out_of_fuel := by
  unfold shift_left; intro h; cases h

theorem max_mem_count_budget (cfg : pars) :
    GetNfactor.max_mem_count cfg ≠ .error .out_of_fuel := by
  unfold GetNfactor.max_mem_count
  dsimp only
  split <;> intro h <;> cases h

theorem p_loop_start_budget (mem mm : Int) :
    GetNfactor.p_loop mem mm GetNfactor.p_loop_fuel 1 ≠ .error .out_of_fuel :=
  GetNfactor.p_loop_budget mem mm 64 0 (by omega) (by decide)

/-- The body of `GetNfactor` never fails for lack of loop iterations: the
budget of `p_loop` is enough for every configuration and block time. -/
theorem GetNfactor.locals_budget (cfg : pars) (t : Int) :
    GetNfactor.locals cfg t ≠ .error .out_of_fuel := by
  unfold GetNfactor.locals
  refine bind_ne_error (safe_mul_budget _ _) (fun MiB => ?_)
  refine bind_ne_error (safe_mul_budget _ _) (fun initial_mem => ?_)
  refine bind_ne_error (shift_left_budget _ _ _) (fun shifted => ?_)
  refine bind_ne_error (safe_of_unsigned_budget _) (fun mult => ?_)
  refine bind_ne_error (safe_mul_budget _ _) (fun mem0 => ?_)
  refine guard_ne_error (by decide) ?_
  refine bind_ne_error (safe_mul_budget _ _) (fun btm => ?_)
  refine bind_ne_error (max_mem_count_budget _) (fun count => ?_)
  refine bind_ne_error (safe_of_rep_budget _) (fun max_mem => ?_)
  refine bind_ne_error (p_loop_start_budget _ _) (fun p => ?_)
  refine bind_ne_error (shift_left_budget _ _ _) (fun cores => ?_)
  refine bind_ne_error (safe_mul_budget _ _) (fun mtm => ?_)
  refine guard_ne_error (by decide) ?_
  refine bind_ne_error (safe_div_budget _ _) (fun per_mem => ?_)
  refine bind_ne_error (safe_of_unsigned_budget _) (fun cores_s => ?_)
  refine bind_ne_error ?_ (fun mem => ?_)
  · split
    · exact safe_mul_budget _ _
    · intro h; cases h
  refine bind_ne_error (shift_left_budget _ _ _) (fun r0u => ?_)
  refine bind_ne_error (safe_of_unsigned_budget _) (fun r0 => ?_)
  refine bind_ne_error (safe_mul_budget _ _) (fun scaled => ?_)
  refine bind_ne_error (safe_div_budget _ _) (fun grown => ?_)
  refine bind_ne_error (safe_add_budget _ _) (fun r => ?_)
  refine bind_ne_error (safe_mul_budget _ _) (fun d1 => ?_)
  refine bind_ne_error (safe_mul_budget _ _) (fun d => ?_)
  refine bind_ne_error (safe_div_budget _ _) (fun N => ?_)
  refine guard_ne_error (by decide) ?_
  intro h; cases h

/-- `GetNfactor` is total for the embedding: every call ends with a tuple or
with a failure of the code, never with the exhausted budget of `p_loop`. -/
theorem GetNfactor_budget (cfg : pars) (t : Int) :
    GetNfactor cfg t ≠ .error .out_of_fuel := by
  unfold GetNfactor
  refine bind_ne_error (GetNfactor.locals_budget cfg t) (fun l => ?_)
  refine bind_ne_error (safe_cast_unsigned_budget _) (fun N => ?_)
  refine bind_ne_error (safe_cast_unsigned_budget _) (fun r => ?_)
  refine bind_ne_error (safe_cast_unsigned_budget _) (fun p => ?_)
  intro h; cases h

/-! ## Returned tuples and traces -/

/-- A returned tuple is the cast of the locals `N`, `r`, `p` of a successful body. -/
theorem GetNfactor_ok_inv {cfg : pars} {t : Int} {N r p : Nat}
    (h : GetNfactor cfg t = .ok (N, r, p)) :
    ∃ l, GetNfactor.locals cfg t = .ok l ∧ (N : Int) = l.N ∧ (r : Int) = l.r ∧
      (p : Int) = l.p ∧ l.r ≤ UINT32_MAX ∧ l.p ≤ UINT32_MAX := by
  unfold GetNfactor at h
  obtain ⟨l, hl, h⟩ := bind_ok_inv h
  obtain ⟨N1, hN, h⟩ := bind_ok_inv h
  obtain ⟨r1, hr, h⟩ := bind_ok_inv h
  obtain ⟨p1, hp, h⟩ := bind_ok_inv h
  cases h
  obtain ⟨hN1, -, -⟩ := safe_cast_unsigned_ok_inv hN
  obtain ⟨hr1, -, hr2⟩ := safe_cast_unsigned_ok_inv hr
  obtain ⟨hp1, -, hp2⟩ := safe_cast_unsigned_ok_inv hp
  exact ⟨l, hl, hN1, hr1, hp1, hr2, hp2⟩

/-- A returned tuple comes from a trace that passed the length test and whose
`N`, `r` and `p` are inside the `unsigned` range. -/
theorem GetNfactor_ok_trace {cfg : pars} {t : Int} {N r p : Nat}
    (h : GetNfactor cfg t = .ok (N, r, p)) :
    ∃ l tr, GetNfactor.locals cfg t = .ok l ∧ GetNfactor.trace cfg t = .ok tr ∧
      l.block_time = tr.block_time ∧ l.moore_steps = tr.moore_steps ∧ l.mem = tr.mem ∧
      l.p = tr.p ∧ l.r0 = tr.r0 ∧ l.r = tr.r ∧ l.N = tr.N ∧
      (N : Int) = tr.N ∧ (r : Int) = tr.r ∧ (p : Int) = tr.p ∧
      tr.N ≤ UINT32_MAX ∧ tr.r ≤ UINT32_MAX ∧ tr.p ≤ UINT32_MAX := by
  obtain ⟨l, hl, hN, hr, hp, hr32, hp32⟩ := GetNfactor_ok_inv h
  obtain ⟨tr, htr, hN32, hbt, hms, hmem, hlp, hlr0, hlr, hlN⟩ := GetNfactor.locals_ok_trace hl
  exact ⟨l, tr, hl, htr, hbt, hms, hmem, hlp, hlr0, hlr, hlN, by rw [hN, hlN],
    by rw [hr, hlr], by rw [hp, hlp], hN32, by rw [← hlr]; exact hr32,
    by rw [← hlp]; exact hp32⟩

/-- The quotient of the final division of a trace is never negative. -/
theorem GetNfactor.trace_N_nonneg {cfg : pars} {t : Int} {tr : GetNfactor.Trace}
    (h : GetNfactor.trace cfg t = .ok tr) : 0 ≤ tr.N ∧ 0 < tr.p ∧ 0 < tr.r0 ∧ 0 < tr.mem := by
  obtain ⟨-, -, -, -, -, hg, -, hloop, -, -, -, -, hmem, ⟨-, -, hr0⟩, -, hN⟩ :=
    GetNfactor.trace_ok_inv h
  obtain ⟨k, hk⟩ := GetNfactor.p_loop_pow hloop
  rw [one_mul] at hk
  have hp : 0 < tr.p := by rw [hk]; positivity
  have hr : 0 < tr.r0 := by rw [hr0]; positivity
  have hm : 0 < tr.mem := by rw [hmem, hg]; positivity
  refine ⟨?_, hp, hr, hm⟩
  rw [hN, Int.tdiv_eq_ediv (le_of_lt hm) (by positivity)]
  exact Int.ediv_nonneg (le_of_lt hm) (by positivity)

/-- The outcome of `GetNfactor` on a run that reached the final division with
`N`, `r` and `p` inside the `unsigned` range. -/
theorem GetNfactor_of_trace {cfg : pars} {t : Int} {tr : GetNfactor.Trace}
    (h : GetNfactor.trace cfg t = .ok tr)
    (hN : 0 ≤ tr.N ∧ tr.N ≤ UINT32_MAX) (hr : 0 ≤ tr.r ∧ tr.r ≤ UINT32_MAX)
    (hp : 0 ≤ tr.p ∧ tr.p ≤ UINT32_MAX) :
    GetNfactor cfg t = .ok (tr.N.toNat, tr.r.toNat, tr.p.toNat) := by
  have hcN : safe.cast_unsigned tr.N = .ok tr.N.toNat := by
    unfold safe.cast_unsigned; rw [if_pos hN]
  have hcr : safe.cast_unsigned tr.r = .ok tr.r.toNat := by
    unfold safe.cast_unsigned; rw [if_pos hr]
  have hcp : safe.cast_unsigned tr.p = .ok tr.p.toNat := by
    unfold safe.cast_unsigned; rw [if_pos hp]
  unfold GetNfactor
  rw [GetNfactor.locals_eq_trace, h]
  simp only [ok_bind, GetNfactor.length_check]
  rw [if_neg (not_lt.mpr hN.2)]
  simp only [ok_bind, hcN, hcr, hcp]

/-! ## The scenarios of the test configuration -/

/-- C1 (scenario A): the birth time is day 16195 of the epoch, the test
configuration gives `max_mem = 500,000,000`, and at `block_time = birth_time`
the body computes `moore_steps = 0` and `GetNfactor` returns `(1024, 8, 1)`. -/
theorem scenario_A_birth_time :
    days_from_civil 2014 5 5 = 16195 ∧
    GetNfactor.birth_time = 16195 * 86400 ∧
    GetNfactor.max_mem_count test_pars = .ok 500000000 ∧
    Except.map GetNfactor.Locals.moore_steps
      (GetNfactor.locals test_pars GetNfactor.birth_time) = .ok 0 ∧
    GetNfactor test_pars GetNfactor.birth_time = .ok (1024, 8, 1) := by
  refine ⟨by decide, by decide, by decide, by decide, by decide⟩

/-- C2 (scenario B): 18 months of 30 days are 46,656,000 s, and at
`block_time = birth_time + 18 months` the body computes `moore_steps = 1` and
`GetNfactor` returns `(2048, 9, 1)` under the test configuration. -/
theorem scenario_B_one_moore_period :
    GetNfactor.moore_period * GetNfactor.avg_months = 18 * 30 * 86400 ∧
    GetNfactor.moore_period * GetNfactor.avg_months = 46656000 ∧
    Except.map GetNfactor.Locals.moore_steps
      (GetNfactor.locals test_pars
        (GetNfactor.birth_time + GetNfactor.moore_period * GetNfactor.avg_months)) = .ok 1 ∧
    GetNfactor test_pars
      (GetNfactor.birth_time + GetNfactor.moore_period * GetNfactor.avg_months)
      = .ok (2048, 9, 1) := by
  refine ⟨by decide, by decide, by decide, by decide⟩

/-! ## The clamp -/

/-- C3 (clamp): for every configuration and every block time `t ≤ birth_time`,
`GetNfactor` at `t` has the outcome it has at `birth_time`, the same tuple or
the same failure. -/
theorem GetNfactor_clamp (cfg : pars) (t : Int) (h : t ≤ GetNfactor.birth_time) :
    GetNfactor cfg t = GetNfactor cfg GetNfactor.birth_time := by
  unfold GetNfactor GetNfactor.locals
  rw [GetNfactor.clamp_of_le h, GetNfactor.clamp_of_le (le_refl _)]

/-- Witness of C3 at the wire timestamp 0 (1970-01-01). -/
theorem GetNfactor_clamp_witness :
    clock.from_nTime 0 ≤ GetNfactor.birth_time ∧
    GetNfactor test_pars (clock.from_nTime 0) = GetNfactor test_pars GetNfactor.birth_time :=
  ⟨by decide, GetNfactor_clamp test_pars (clock.from_nTime 0) (by decide)⟩

/-! ## Overflow rejection -/

/-- With a step count from 43 to 62 the multiplier `1ULL << moore_steps` is
exact and `initial_mem * moor_mem_multiplier` is the first failure. -/
theorem GetNfactor.locals_overflow (cfg : pars) (t : Int) (n : Nat)
    (hs : GetNfactor.moore_steps (GetNfactor.clamp t) = (n : Int))
    (h43 : 43 ≤ n) (h62 : n ≤ 62) :
    GetNfactor.locals cfg t = .error .overflow_error := by
  have hlo : (2 : Int) ^ 43 ≤ 2 ^ n := pow_le_pow_right₀ (by norm_num) h43
  have hhi : (2 : Int) ^ n ≤ 2 ^ 62 := pow_le_pow_right₀ (by norm_num) h62
  have hhiN : 2 ^ n ≤ 2 ^ 62 := Nat.pow_le_pow_right (by norm_num) h62
  have h1 : safe.mul 1024 1024 = .ok 1048576 := by decide
  have h2 : safe.mul 1 1048576 = .ok 1048576 := by decide
  have hsh : shift_left 64 1 (n : Int) = .ok (2 ^ n) := by
    have := shift_left_exact (w := 64) (x := 1) (n := n) (by omega)
      (by norm_num at hhiN ⊢; omega)
    rw [one_mul] at this
    exact this
  have hof : safe.of_unsigned (2 ^ n) = .ok ((2 : Int) ^ n) := by
    unfold safe.of_unsigned fits_long_long LLONG_MAX LLONG_MIN
    push_cast
    rw [if_pos (by norm_num at hhi hlo ⊢; omega)]
  have hmul : safe.mul 1048576 ((2 : Int) ^ n) = .error .overflow_error := by
    unfold safe.mul fits_long_long LLONG_MAX LLONG_MIN
    rw [if_neg (by norm_num at hhi hlo ⊢; omega)]
  unfold GetNfactor.locals
  simp only [hs, h1, h2, hsh, hof, hmul, ok_bind, error_bind]

/-- The step count of a 32-bit wire timestamp is its exact quotient and at most 62. -/
theorem GetNfactor.wire_moore_steps (t : Nat) (ht : t < 2 ^ 32) :
    GetNfactor.moore_steps (GetNfactor.clamp (clock.from_nTime t))
      = (GetNfactor.clamp (clock.from_nTime t) - 1399248000) / 2592000 / 18 ∧
    0 ≤ GetNfactor.moore_steps (GetNfactor.clamp (clock.from_nTime t)) ∧
    GetNfactor.moore_steps (GetNfactor.clamp (clock.from_nTime t)) ≤ 62 := by
  have hge := GetNfactor.clamp_ge (clock.from_nTime t)
  have hle : GetNfactor.clamp (clock.from_nTime t) < 2 ^ 32 := by
    unfold GetNfactor.clamp clock.from_nTime
    rw [GetNfactor.birth_time_eq]
    split <;> omega
  rw [GetNfactor.moore_steps_eq hge]
  rw [GetNfactor.birth_time_eq] at hge
  generalize GetNfactor.clamp (clock.from_nTime t) = bt at *
  omega

/-- C4 (overflow rejection): for every configuration and every 32-bit wire
timestamp `t` whose step count makes `2 ^ (20 + moore_steps)` exceed the
signed 64-bit range, the step count is at least 43 and `GetNfactor` at
`from_nTime t` fails with the overflow error: no tuple is returned. -/
theorem GetNfactor_overflow_rejection (cfg : pars) (t : Nat) (ht : t < 2 ^ 32)
    (hbig : LLONG_MAX <
      2 ^ (20 + (GetNfactor.moore_steps (GetNfactor.clamp (clock.from_nTime t))).toNat)) :
    43 ≤ GetNfactor.moore_steps (GetNfactor.clamp (clock.from_nTime t)) ∧
    GetNfactor cfg (clock.from_nTime t) = .error .overflow_error := by
  obtain ⟨-, hs0, hs62⟩ := GetNfactor.wire_moore_steps t ht
  generalize hsdef : GetNfactor.moore_steps (GetNfactor.clamp (clock.from_nTime t)) = s at *
  obtain ⟨n, rfl⟩ : ∃ n : Nat, s = (n : Int) := ⟨s.toNat, (Int.toNat_of_nonneg hs0).symm⟩
  rw [Int.toNat_ofNat] at hbig
  have h43 : 43 ≤ n := by
    by_contra hcon
    have hle : (2 : Int) ^ (20 + n) ≤ 2 ^ 62 := pow_le_pow_right₀ (by norm_num) (by omega)
    unfold LLONG_MAX at hbig
    norm_num at hle hbig
    omega
  refine ⟨by omega, ?_⟩
  unfold GetNfactor
  rw [GetNfactor.locals_overflow cfg _ n hsdef h43 (by omega)]
  rfl

/-- Witness of C4 at the wire timestamp 3,405,456,000, the first second of
Moore step 43. -/
theorem GetNfactor_overflow_rejection_witness :
    (3405456000 : Nat) < 2 ^ 32 ∧
    LLONG_MAX < 2 ^ (20 +
      (GetNfactor.moore_steps (GetNfactor.clamp (clock.from_nTime 3405456000))).toNat) ∧
    43 ≤ GetNfactor.moore_steps (GetNfactor.clamp (clock.from_nTime 3405456000)) ∧
    GetNfactor test_pars (clock.from_nTime 3405456000) = .error .overflow_error :=
  ⟨by decide, by decide,
    GetNfactor_overflow_rejection test_pars 3405456000 (by decide) (by decide)⟩

/-! ## The wire conversions -/

/-- C5 (wire round trip): for every 32-bit unsigned wire timestamp `t`,
`to_nTime (from_nTime t) = t`. -/
theorem to_nTime_from_nTime (t : Nat) (ht : t < 2 ^ 32) :
    clock.to_nTime (clock.from_nTime t) = t := by
  unfold clock.to_nTime clock.from_nTime to_unsigned
  omega

/-- Witness of C5 at the largest wire timestamp. -/
theorem to_nTime_from_nTime_witness :
    (4294967295 : Nat) < 2 ^ 32 ∧
    clock.to_nTime (clock.from_nTime 4294967295) = 4294967295 :=
  ⟨by decide, to_nTime_from_nTime 4294967295 (by decide)⟩

/-- C6 as stated fails: the block time point `2 ^ 32` s is a signed 64-bit
count, `to_nTime` sends it to the wire timestamp 0, and `from_nTime` gives back
the epoch, not the time point. -/
theorem from_nTime_to_nTime_counterexample :
    fits_long_long 4294967296 ∧ clock.to_nTime 4294967296 = 0 ∧
    clock.from_nTime (clock.to_nTime 4294967296) ≠ 4294967296 := by
  refine ⟨by decide, by decide, by decide⟩

/-- C6 amended: `from_nTime (to_nTime tp)` is `tp` reduced modulo `2 ^ 32`, so
it is `tp` exactly for the block time points `0 ≤ tp < 2 ^ 32`, the ones a
32-bit wire timestamp can carry. -/
theorem from_nTime_to_nTime (tp : Int) :
    clock.from_nTime (clock.to_nTime tp) = tp % 2 ^ 32 ∧
    (clock.from_nTime (clock.to_nTime tp) = tp ↔ 0 ≤ tp ∧ tp < 2 ^ 32) := by
  unfold clock.to_nTime clock.from_nTime to_unsigned
  constructor
  · omega
  · constructor
    · intro h; omega
    · intro h; omega

/-! ## Shape of a returned tuple -/

/-- C7: for every configuration and block time at which `GetNfactor` returns a
tuple, the returned `p` is the local `p` unchanged by the cast, and it is a
power of two `2 ^ k` with `k < 32`, hence at least 1. -/
theorem GetNfactor_p_power_of_two (cfg : pars) (t : Int) (N r p : Nat)
    (h : GetNfactor cfg t = .ok (N, r, p)) :
    (∃ l, GetNfactor.locals cfg t = .ok l ∧ l.p = (p : Int)) ∧
    (∃ k : Nat, k < 32 ∧ p = 2 ^ k) ∧ 1 ≤ p := by
  obtain ⟨l, tr, hl, htr, -, -, -, hlp, -, -, -, -, -, hp, -, -, hp32⟩ :=
    GetNfactor_ok_trace h
  obtain ⟨-, -, -, -, -, -, -, hloop, -⟩ := GetNfactor.trace_ok_inv htr
  obtain ⟨k, hk⟩ := GetNfactor.p_loop_pow hloop
  rw [one_mul] at hk
  have hpk : p = 2 ^ k := by
    have : (p : Int) = ((2 ^ k : Nat) : Int) := by rw [hp, hk]; push_cast; rfl
    exact_mod_cast this
  refine ⟨⟨l, hl, by rw [hlp, hp]⟩, ⟨k, ?_, hpk⟩, ?_⟩
  · by_contra hcon
    have h32 : (2 : Int) ^ 32 ≤ 2 ^ k := pow_le_pow_right₀ (by norm_num) (by omega)
    unfold UINT32_MAX at hp32
    rw [hk] at hp32
    norm_num at h32 hp32
    omega
  · rw [hpk]; exact Nat.one_le_two_pow

/-- Witness of C7 at Moore step 12 of the test configuration, where `p = 16`. -/
theorem GetNfactor_p_power_of_two_witness :
    GetNfactor test_pars 1959120000 = .ok (65536, 44, 16) ∧
    ((∃ l, GetNfactor.locals test_pars 1959120000 = .ok l ∧ l.p = ((16 : Nat) : Int)) ∧
    (∃ k : Nat, k < 32 ∧ 16 = 2 ^ k) ∧ 1 ≤ 16) :=
  ⟨by decide, GetNfactor_p_power_of_two test_pars 1959120000 65536 44 16 (by decide)⟩

/-- C10: for every configuration and block time at which `GetNfactor` returns
a tuple, with `r0` the value of the source's shift `8 << (moore_steps / 5)`
(not zero; `8 * 2 ^ (moore_steps / 5)` as long as `moore_steps < 160`), the
returned `r` is
`r0 + floor(r0 * (block_time - last_r_step_time) / (5 * moore_period))`,
and `r0 ≤ r < 2 * r0`; in particular `8 ≤ r`. -/
theorem GetNfactor_r_between (cfg : pars) (t : Int) (N r p : Nat)
    (h : GetNfactor cfg t = .ok (N, r, p)) :
    ∃ l, GetNfactor.locals cfg t = .ok l ∧
      shift_left 32 GetNfactor.initial_r (Int.tdiv l.moore_steps 5) = .ok l.r0.toNat ∧
      8 ≤ l.r0 ∧
      (l.moore_steps < 160 → l.r0 = 8 * 2 ^ (l.moore_steps / 5).toNat) ∧
      (r : Int) = l.r0 + l.r0 * (l.block_time - GetNfactor.last_r_step_time l.moore_steps)
        / (5 * (GetNfactor.moore_period * GetNfactor.avg_months)) ∧
      l.r0 ≤ r ∧ (r : Int) < 2 * l.r0 ∧ 8 ≤ r := by
  obtain ⟨l, tr, hl, htr, hbt, hms, -, -, hlr0, hlr, -, -, hr, -, -, hr32, -⟩ :=
    GetNfactor_ok_trace h
  obtain ⟨-, hs0, -, -, hreq, hr08, hlo, hhi⟩ := GetNfactor.trace_r_facts htr hr32
  obtain ⟨-, -, -, -, -, -, -, -, -, -, -, -, -, ⟨h28, hshift, hr0⟩, -⟩ :=
    GetNfactor.trace_ok_inv htr
  have hden : (5 : Int) * (GetNfactor.moore_period * GetNfactor.avg_months) = 233280000 := by
    rw [GetNfactor.avg_months_eq, GetNfactor.moore_period]; norm_num
  have htoNat : tr.r0.toNat = 8 * 2 ^ (Int.tdiv tr.moore_steps 5 % 32).toNat := by
    rw [hr0]
    have : (8 : Int) * 2 ^ (Int.tdiv tr.moore_steps 5 % 32).toNat
        = ((8 * 2 ^ (Int.tdiv tr.moore_steps 5 % 32).toNat : Nat) : Int) := by
      push_cast; rfl
    rw [this, Int.toNat_ofNat]
  refine ⟨l, hl, ?_⟩
  rw [hden, hr, hbt, hms, hlr0]
  refine ⟨by rw [htoNat]; exact hshift, hr08, ?_, hreq, hlo, hhi, ?_⟩
  swap
  · have : (8 : Int) ≤ (r : Int) := by rw [hr]; omega
    exact_mod_cast this
  intro h160
  have hdiv : Int.tdiv tr.moore_steps 5 = tr.moore_steps / 5 :=
    Int.tdiv_eq_ediv hs0 (by norm_num)
  have hk : (Int.tdiv tr.moore_steps 5 % 32).toNat = (tr.moore_steps / 5).toNat := by
    rw [hdiv]; omega
  rw [hr0, hk]

/-- Witness of C10 in the middle of Moore step 12 of the test configuration:
`r0 = 32` and `r = 48`. -/
theorem GetNfactor_r_between_witness :
    GetNfactor test_pars 1982448000 = .ok (65536, 48, 16) ∧
    ∃ l, GetNfactor.locals test_pars 1982448000 = .ok l ∧
      shift_left 32 GetNfactor.initial_r (Int.tdiv l.moore_steps 5) = .ok l.r0.toNat ∧
      8 ≤ l.r0 ∧
      (l.moore_steps < 160 → l.r0 = 8 * 2 ^ (l.moore_steps / 5).toNat) ∧
      ((48 : Nat) : Int) = l.r0 + l.r0 *
        (l.block_time - GetNfactor.last_r_step_time l.moore_steps)
        / (5 * (GetNfactor.moore_period * GetNfactor.avg_months)) ∧
      l.r0 ≤ (48 : Nat) ∧ ((48 : Nat) : Int) < 2 * l.r0 ∧ 8 ≤ 48 :=
  ⟨by decide, GetNfactor_r_between test_pars 1982448000 65536 48 16 (by decide)⟩

/-! ## The final division and the length test -/

/-- C11: for every configuration and block time at which the body reaches the
final division, `N` is the truncating quotient `mem / (128 * r0 * p)`; when it
exceeds `2 ^ 32 - 1` the call fails with the length error ("N factor is too
large"), and otherwise the cast `(uint32_t) N` is exact: the outcome is the
tuple of that quotient with the cast `r` and `p`. -/
theorem GetNfactor_N_fits_or_fails (cfg : pars) (t : Int) (tr : GetNfactor.Trace)
    (h : GetNfactor.trace cfg t = .ok tr) :
    tr.N = Int.tdiv tr.mem (128 * tr.r0 * tr.p) ∧
    (UINT32_MAX < tr.N → GetNfactor cfg t = .error .length_error) ∧
    (tr.N ≤ UINT32_MAX →
      ((tr.N.toNat : Nat) : Int) = tr.N ∧
      GetNfactor cfg t = (safe.cast_unsigned tr.r >>= fun r =>
        safe.cast_unsigned tr.p >>= fun p => .ok (tr.N.toNat, r, p))) := by
  obtain ⟨hN0, -⟩ := GetNfactor.trace_N_nonneg h
  obtain ⟨-, -, -, -, -, -, -, -, -, -, -, -, -, -, -, hN⟩ := GetNfactor.trace_ok_inv h
  refine ⟨hN, ?_, ?_⟩
  · intro hbig
    unfold GetNfactor
    rw [GetNfactor.locals_eq_trace, h]
    simp only [ok_bind, GetNfactor.length_check]
    rw [if_pos hbig]
    rfl
  · intro hfit
    refine ⟨Int.toNat_of_nonneg hN0, ?_⟩
    unfold GetNfactor
    rw [GetNfactor.locals_eq_trace, h]
    simp only [ok_bind, GetNfactor.length_check]
    rw [if_neg (not_lt.mpr hfit)]
    simp only [ok_bind]
    have hc : safe.cast_unsigned tr.N = .ok tr.N.toNat := by
      unfold safe.cast_unsigned
      rw [if_pos ⟨hN0, hfit⟩]
    rw [hc]
    rfl

/-- Witness of C11 on both sides of the test: with block periods of
54,000,000,000 s the quotient at Moore step 35 is `2 ^ 38` and the call fails
with the length error; with the test configuration at Moore step 12 it is
65536 and is returned as it is. -/
theorem GetNfactor_N_fits_or_fails_witness :
    GetNfactor.trace (pars.mk (54000000000, 54000000000)) 3032208000 = .ok
      ⟨3032208000, 35, 1048576, 34359738368, 36028797018963968, 450000000000000000, 1,
        68719476736, 68719476736, 4611686018427387904, 36028797018963968,
        36028797018963968, 1024, 1024, 274877906944⟩ ∧
    UINT32_MAX < 274877906944 ∧
    GetNfactor (pars.mk (54000000000, 54000000000)) 3032208000 = .error .length_error ∧
    GetNfactor.trace test_pars 1959120000 = .ok
      ⟨1959120000, 12, 1048576, 4096, 4294967296, 500000000, 16, 8192, 8192,
        549755813888, 4294967296, 4294967296, 32, 44, 65536⟩ ∧
    (65536 : Int) ≤ UINT32_MAX ∧
    GetNfactor test_pars 1959120000 = .ok (65536, 44, 16) :=
  ⟨by decide, by decide,
   (GetNfactor_N_fits_or_fails (pars.mk (54000000000, 54000000000)) 3032208000
      ⟨3032208000, 35, 1048576, 34359738368, 36028797018963968, 450000000000000000, 1,
        68719476736, 68719476736, 4611686018427387904, 36028797018963968,
        36028797018963968, 1024, 1024, 274877906944⟩ (by decide)).2.1 (by decide),
   by decide, by decide,
   ((GetNfactor_N_fits_or_fails test_pars 1959120000
      ⟨1959120000, 12, 1048576, 4096, 4294967296, 500000000, 16, 8192, 8192,
        549755813888, 4294967296, 4294967296, 32, 44, 65536⟩ (by decide)).2.2
      (by decide)).2⟩

/-! ## Native operations on wire timestamps -/

/-- C12 (no silent truncation): for every 32-bit wire timestamp `t` the native
operations of `GetNfactor` on `from_nTime t` are exact. The narrowing to
`int moore_steps` keeps the 64-bit quotient; `0 ≤ moore_steps < 64`;
`1ULL << moore_steps` is `2 ^ moore_steps` below `2 ^ 64` and converts to signed
64-bit unchanged; `birth_cores << moore_steps` is `2 * 2 ^ moore_steps` below
`2 ^ 64`; the count `moore_steps / 5` is below 32 and
`initial_r << moore_steps / 5` is `8 * 2 ^ (moore_steps / 5)` below `2 ^ 32`;
and the differences and sums of time points stay inside the 64-bit `rep`. -/
theorem GetNfactor_native_operations_exact (t : Nat) (ht : t < 2 ^ 32) :
    GetNfactor.moore_steps (GetNfactor.clamp (clock.from_nTime t))
      = GetNfactor.moore_steps_rep (GetNfactor.clamp (clock.from_nTime t)) ∧
    ∃ s : Nat, GetNfactor.moore_steps (GetNfactor.clamp (clock.from_nTime t)) = (s : Int) ∧
      s < 64 ∧
      shift_left 64 1 (s : Int) = .ok (2 ^ s) ∧ 2 ^ s < 2 ^ 64 ∧
      safe.of_unsigned (2 ^ s) = .ok ((2 : Int) ^ s) ∧
      shift_left 64 GetNfactor.birth_cores (s : Int) = .ok (2 * 2 ^ s) ∧
      2 * 2 ^ s < 2 ^ 64 ∧
      Int.tdiv (s : Int) 5 = ((s / 5 : Nat) : Int) ∧ s / 5 < 32 ∧
      shift_left 32 GetNfactor.initial_r (Int.tdiv (s : Int) 5) = .ok (8 * 2 ^ (s / 5)) ∧
      8 * 2 ^ (s / 5) < 2 ^ 32 ∧
      fits_long_long (GetNfactor.clamp (clock.from_nTime t) - GetNfactor.birth_time) ∧
      fits_long_long (GetNfactor.last_step_time (s : Int)) ∧
      fits_long_long (GetNfactor.last_r_step_time (s : Int)) ∧
      fits_long_long
        (GetNfactor.clamp (clock.from_nTime t) - GetNfactor.last_r_step_time (s : Int)) := by
  obtain ⟨hexact, hs0, hs62⟩ := GetNfactor.wire_moore_steps t ht
  have hge := GetNfactor.clamp_ge (clock.from_nTime t)
  have hrep := GetNfactor.moore_steps_rep_eq hge
  refine ⟨by rw [hexact, hrep], ?_⟩
  have hlt : GetNfactor.clamp (clock.from_nTime t) < 2 ^ 32 := by
    unfold GetNfactor.clamp clock.from_nTime
    rw [GetNfactor.birth_time_eq]
    split <;> omega
  generalize GetNfactor.clamp (clock.from_nTime t) = bt at *
  generalize GetNfactor.moore_steps bt = s at *
  obtain ⟨n, rfl⟩ : ∃ n : Nat, s = (n : Int) := ⟨s.toNat, (Int.toNat_of_nonneg hs0).symm⟩
  have hn62 : n ≤ 62 := by omega
  have hpow : 2 ^ n ≤ 2 ^ 62 := Nat.pow_le_pow_right (by norm_num) hn62
  have hk12 : n / 5 ≤ 12 := by omega
  have hpk : 2 ^ (n / 5) ≤ 2 ^ 12 := Nat.pow_le_pow_right (by norm_num) hk12
  have h1 : 1 * 2 ^ n < 2 ^ 64 := by norm_num at hpow ⊢; omega
  have h2 : 2 * 2 ^ n < 2 ^ 64 := by norm_num at hpow ⊢; omega
  have h8 : 8 * 2 ^ (n / 5) < 2 ^ 32 := by norm_num at hpk ⊢; omega
  have hdiv : Int.tdiv (n : Int) 5 = ((n / 5 : Nat) : Int) := by
    rw [Int.tdiv_eq_ediv (by omega) (by omega)]
    omega
  have hfit : fits_long_long bt := by
    rw [GetNfactor.birth_time_eq] at hge
    unfold fits_long_long LLONG_MAX LLONG_MIN
    constructor <;> omega
  obtain ⟨f1, -, f3, -, f5, f6⟩ :=
    GetNfactor.time_arithmetic_fits (s := (n : Int)) hge hfit (by omega) (by omega)
  refine ⟨n, rfl, by omega, ?_, by omega, ?_, shift_left_exact (by omega) h2, h2, hdiv,
    by omega, ?_, h8, f1, f3, f5, f6⟩
  · have := shift_left_exact (w := 64) (x := 1) (n := n) (by omega) h1
    rw [one_mul] at this
    exact this
  · unfold safe.of_unsigned fits_long_long LLONG_MAX LLONG_MIN
    have hz : ((2 ^ n : Nat) : Int) ≤ ((2 ^ 62 : Nat) : Int) := by exact_mod_cast hpow
    push_cast at hz ⊢
    have h0 : (0 : Int) ≤ 2 ^ n := by positivity
    rw [if_pos (by constructor <;> omega)]
  · rw [hdiv]
    exact shift_left_exact (by omega) h8

/-- Witness of C12 at the largest wire timestamp, Moore step 62. -/
theorem GetNfactor_native_operations_exact_witness :
    (4294967295 : Nat) < 2 ^ 32 ∧
    GetNfactor.moore_steps (GetNfactor.clamp (clock.from_nTime 4294967295)) = 62 ∧
    GetNfactor.moore_steps (GetNfactor.clamp (clock.from_nTime 4294967295))
      = GetNfactor.moore_steps_rep (GetNfactor.clamp (clock.from_nTime 4294967295)) :=
  ⟨by decide, by decide, (GetNfactor_native_operations_exact 4294967295 (by decide)).1⟩

/-! ## Step quantization -/

/-- C13 as stated fails: the block time `birth_time + 2 ^ 31 * 46,656,000` s is a
signed 64-bit count at or after the birth time; its 64-bit quotient is the
floor `2 ^ 31`, but `int moore_steps` is `-2 ^ 31`, neither the floor nor
non-negative. -/
theorem moore_steps_floor_counterexample :
    GetNfactor.birth_time ≤ 100192998480336000 ∧
    fits_long_long 100192998480336000 ∧
    (100192998480336000 - GetNfactor.birth_time) / 46656000 = 2147483648 ∧
    GetNfactor.moore_steps_rep (GetNfactor.clamp 100192998480336000) = 2147483648 ∧
    GetNfactor.moore_steps (GetNfactor.clamp 100192998480336000) = -2147483648 ∧
    GetNfactor.moore_steps (GetNfactor.clamp 100192998480336000)
      ≠ (100192998480336000 - GetNfactor.birth_time) / 46656000 ∧
    ¬ 0 ≤ GetNfactor.moore_steps (GetNfactor.clamp 100192998480336000) := by
  refine ⟨by decide, by decide, by decide, by decide, by decide, by decide, by decide⟩

/-- C13 amended: for every block time `t ≥ birth_time` the two truncations give
the 64-bit quotient `floor((t - birth_time) / 46,656,000)`; when `t` is less
than `2 ^ 31` Moore periods after the birth time (as every 32-bit wire
timestamp is) the narrowing to `int` keeps it, so `moore_steps` is that
non-negative floor and `last_step_time ≤ t < last_step_time + moore_period`. -/
theorem moore_steps_floor (t : Int) (hb : GetNfactor.birth_time ≤ t) :
    GetNfactor.moore_steps_rep (GetNfactor.clamp t)
      = (t - GetNfactor.birth_time) / 46656000 ∧
    (t < GetNfactor.birth_time + 2 ^ 31 * 46656000 →
      GetNfactor.moore_steps (GetNfactor.clamp t) = (t - GetNfactor.birth_time) / 46656000 ∧
      0 ≤ GetNfactor.moore_steps (GetNfactor.clamp t) ∧
      GetNfactor.last_step_time (GetNfactor.moore_steps (GetNfactor.clamp t)) ≤ t ∧
      t < GetNfactor.last_step_time (GetNfactor.moore_steps (GetNfactor.clamp t))
        + GetNfactor.moore_period * GetNfactor.avg_months) := by
  rw [GetNfactor.clamp_of_ge hb, GetNfactor.moore_steps_eq hb, GetNfactor.moore_steps_rep_eq hb]
  unfold GetNfactor.last_step_time
  rw [GetNfactor.avg_months_eq, GetNfactor.moore_period]
  rw [GetNfactor.birth_time_eq] at hb ⊢
  constructor
  · omega
  · intro hlt
    omega

/-- Witness of C13 amended at the largest wire timestamp: Moore step 62. -/
theorem moore_steps_floor_witness :
    GetNfactor.birth_time ≤ 4294967295 ∧
    (4294967295 : Int) < GetNfactor.birth_time + 2 ^ 31 * 46656000 ∧
    GetNfactor.moore_steps_rep (GetNfactor.clamp 4294967295)
      = (4294967295 - GetNfactor.birth_time) / 46656000 ∧
    GetNfactor.moore_steps (GetNfactor.clamp 4294967295) = 62 ∧
    GetNfactor.moore_steps (GetNfactor.clamp 4294967295)
      = (4294967295 - GetNfactor.birth_time) / 46656000 :=
  ⟨by decide, by decide, (moore_steps_floor 4294967295 (by decide)).1, by decide,
    ((moore_steps_floor 4294967295 (by decide)).2 (by decide)).1⟩

/-! ## The least power of two of the loop -/

/-- C14 (parallelism loop): for every `max_mem ≥ 1` and every `mem` with
`1 ≤ mem ≤ LLONG_MAX` (so for every `mem = initial_mem * 2 ^ moore_steps` of
the memory growth step), the loop started at `p = 1` ends within its budget and
without an overflow error; its result is a power of two `2 ^ k`, `mem / 2 ^ k`
(truncating) is at most `max_mem`, and `2 ^ k` is the least power of two with
that property. -/
theorem p_loop_least_power_of_two (mem mm : Int) (hmm : 1 ≤ mm) (h1 : 1 ≤ mem)
    (hfit : mem ≤ LLONG_MAX) :
    ∃ k : Nat, GetNfactor.p_loop mem mm GetNfactor.p_loop_fuel 1 = .ok (2 ^ k) ∧
      fits_long_long (2 ^ k) ∧
      Int.tdiv mem (2 ^ k) ≤ mm ∧
      ∀ j : Nat, Int.tdiv mem (2 ^ j) ≤ mm → k ≤ j := by
  obtain ⟨k, hk62, hrun, hle, hleast⟩ :=
    GetNfactor.p_loop_run mem mm (by omega) hfit hmm 64 0 (by omega) (by omega)
      (fun j hj => by omega)
  rw [pow_zero] at hrun
  refine ⟨k, hrun, ?_, hle, ?_⟩
  · have h62 : (2 : Int) ^ k ≤ 2 ^ 62 := pow_le_pow_right₀ (by norm_num) hk62
    have hp0 : (0 : Int) ≤ 2 ^ k := by positivity
    unfold fits_long_long LLONG_MAX LLONG_MIN
    norm_num at h62 ⊢
    constructor <;> omega
  · intro j hj
    by_contra hcon
    have := hleast j (by omega)
    omega

/-- Witness of C14 for the memory of Moore step 12 and the test
configuration: `2 ^ 32 / 16 = 268,435,456 ≤ 500,000,000`. -/
theorem p_loop_least_power_of_two_witness :
    (1 : Int) ≤ 500000000 ∧ (1 : Int) ≤ 4294967296 ∧ (4294967296 : Int) ≤ LLONG_MAX ∧
    GetNfactor.p_loop 4294967296 500000000 GetNfactor.p_loop_fuel 1 = .ok 16 ∧
    ∃ k : Nat, GetNfactor.p_loop 4294967296 500000000 GetNfactor.p_loop_fuel 1 = .ok (2 ^ k) ∧
      fits_long_long (2 ^ k) ∧
      Int.tdiv 4294967296 (2 ^ k) ≤ 500000000 ∧
      ∀ j : Nat, Int.tdiv 4294967296 (2 ^ j) ≤ 500000000 → k ≤ j :=
  ⟨by decide, by decide, by decide, by decide,
    p_loop_least_power_of_two 4294967296 500000000 (by decide) (by decide) (by decide)⟩

/-! ## Runs that reach the final division -/

/-- A run of the body reaches the final division when the step count is
between 0 and 35, the configuration gives a `max_mem`, the loop gives a `p`,
and the products and the sum of the mixing width and of the divisor are
representable. -/
theorem GetNfactor.trace_ok_of (cfg : pars) (t : Int) (n : Nat) (mm p : Int)
    (hs : GetNfactor.moore_steps (GetNfactor.clamp t) = (n : Int)) (hn : n ≤ 35)
    (hmm : GetNfactor.max_mem_count cfg = .ok mm)
    (hp : GetNfactor.p_loop (2 ^ 20 * 2 ^ n) mm GetNfactor.p_loop_fuel 1 = .ok p)
    (hsc : fits_long_long
      (8 * 2 ^ (n / 5) * (GetNfactor.clamp t - GetNfactor.last_r_step_time (n : Int))))
    (hr : fits_long_long (8 * 2 ^ (n / 5) + Int.tdiv
      (8 * 2 ^ (n / 5) * (GetNfactor.clamp t - GetNfactor.last_r_step_time (n : Int)))
      (5 * GetNfactor.moore_period * GetNfactor.avg_months)))
    (hd : fits_long_long (128 * (8 * 2 ^ (n / 5)) * p)) (hp0 : p ≠ 0) :
    ∃ tr, GetNfactor.trace cfg t = .ok tr := by
  have hpowN : 2 ^ n ≤ 2 ^ 35 := Nat.pow_le_pow_right (by norm_num) hn
  have hposN : 1 ≤ 2 ^ n := Nat.one_le_two_pow
  have hk7 : n / 5 ≤ 7 := by omega
  have hpkN : 2 ^ (n / 5) ≤ 2 ^ 7 := Nat.pow_le_pow_right (by norm_num) hk7
  have hposK : 1 ≤ 2 ^ (n / 5) := Nat.one_le_two_pow
  have hpowZ : (2 : Int) ^ n ≤ 2 ^ 35 := pow_le_pow_right₀ (by norm_num) hn
  have hposZ : (1 : Int) ≤ 2 ^ n := one_le_pow₀ (by norm_num)
  have hpkZ : (2 : Int) ^ (n / 5) ≤ 2 ^ 7 := pow_le_pow_right₀ (by norm_num) hk7
  have hposKZ : (1 : Int) ≤ 2 ^ (n / 5) := one_le_pow₀ (by norm_num)
  norm_num at hpowN hpkN hpowZ hpkZ
  have hdiv5 : Int.tdiv (n : Int) 5 = ((n / 5 : Nat) : Int) := by
    rw [Int.tdiv_eq_ediv (by omega) (by omega)]
    omega
  unfold GetNfactor.trace
  simp only [hs]
  refine bind_ok_of _ (safe_mul_ok (by decide)) ?_
  refine bind_ok_of _ (safe_mul_ok (by decide)) ?_
  refine bind_ok_of _ (shift_left_exact (by omega) (by norm_num; omega)) ?_
  refine bind_ok_of _ (safe_of_unsigned_ok (fits_of_bounds (by positivity)
    (by push_cast; omega))) ?_
  refine bind_ok_of _ (safe_mul_ok (fits_of_bounds (by positivity)
    (by push_cast; omega))) ?_
  refine guard_ok_of (by push_cast; omega) ?_
  refine bind_ok_of _ (safe_mul_ok (by decide)) ?_
  refine bind_ok_of _ hmm ?_
  refine bind_ok_of _ (safe_of_rep_ok (GetNfactor.max_mem_count_fits hmm)) ?_
  have hmem : (1 : Int) * (1024 * 1024) * ((1 * 2 ^ n : Nat) : Int) = 2 ^ 20 * 2 ^ n := by
    push_cast; norm_num
  refine bind_ok_of p (by rw [hmem]; exact hp) ?_
  refine bind_ok_of _ (shift_left_exact (by omega)
    (by rw [GetNfactor.birth_cores]; norm_num; omega)) ?_
  refine bind_ok_of _ (safe_mul_ok (fits_of_bounds (by positivity)
    (by push_cast; omega))) ?_
  refine guard_ok_of (by push_cast; omega) ?_
  have hcap : (if (1 : Int) * (1024 * 1024) * ((1 * 2 ^ n : Nat) : Int)
        > 128 * (1024 * 1024) * ((1 * 2 ^ n : Nat) : Int)
      then 128 * (1024 * 1024) * ((1 * 2 ^ n : Nat) : Int)
      else 1 * (1024 * 1024) * ((1 * 2 ^ n : Nat) : Int))
      = 1 * (1024 * 1024) * ((1 * 2 ^ n : Nat) : Int) := by
    rw [if_neg (by push_cast; omega)]
  have hcores : (if GetNfactor.birth_cores * 2 ^ n < GetNfactor.birth_cores
      then GetNfactor.birth_cores else GetNfactor.birth_cores * 2 ^ n)
      = GetNfactor.birth_cores * 2 ^ n := by
    rw [GetNfactor.birth_cores, if_neg (by omega)]
  simp only [hcap, hcores]
  refine bind_ok_of _ (safe_div_ok (by norm_num)) ?_
  refine bind_ok_of _ (safe_of_unsigned_ok (fits_of_bounds (by positivity)
    (by rw [GetNfactor.birth_cores]; push_cast; omega))) ?_
  have hper : ¬ (Int.tdiv ((1 : Int) * (1024 * 1024) * ((1 * 2 ^ n : Nat) : Int))
      (1 * (1024 * 1024)) > ((GetNfactor.birth_cores * 2 ^ n : Nat) : Int)) := by
    rw [Int.tdiv_eq_ediv (by positivity) (by norm_num), GetNfactor.birth_cores]
    push_cast
    omega
  rw [if_neg hper]
  simp only [ok_bind, hdiv5]
  refine bind_ok_of _ (shift_left_exact (by omega)
    (by rw [GetNfactor.initial_r]; norm_num; omega)) ?_
  refine bind_ok_of _ (safe_of_unsigned_ok (fits_of_bounds (by positivity)
    (by rw [GetNfactor.initial_r]; push_cast; omega))) ?_
  have hr0 : ((GetNfactor.initial_r * 2 ^ (n / 5) : Nat) : Int) = 8 * 2 ^ (n / 5) := by
    rw [GetNfactor.initial_r]; push_cast; rfl
  simp only [hr0]
  refine bind_ok_of _ (safe_mul_ok hsc) ?_
  refine bind_ok_of _ (safe_div_ok (by decide)) ?_
  refine bind_ok_of _ (safe_add_ok hr) ?_
  refine bind_ok_of _ (safe_mul_ok (fits_of_bounds (by positivity) (by omega))) ?_
  refine bind_ok_of _ (safe_mul_ok hd) ?_
  have hd0 : (128 : Int) * (8 * 2 ^ (n / 5)) * p ≠ 0 := by
    have : (128 : Int) * (8 * 2 ^ (n / 5)) ≠ 0 := by positivity
    exact mul_ne_zero this hp0
  refine bind_ok_of _ (safe_div_ok hd0) ?_
  exact ⟨_, rfl⟩

/-! ## The schedule of the test configuration -/


theorem GetNfactor.max_mem_count_test :
    GetNfactor.max_mem_count test_pars = .ok 500000000 := by decide

/-- The loop of the test configuration on the memory of Moore step `n ≤ 42`:
`p = 2 ^ (n - 8)`, that is 1 up to step 8 and doubling from then on. -/
theorem GetNfactor.p_loop_test (n : Nat) (hn : n ≤ 42) :
    GetNfactor.p_loop (2 ^ 20 * 2 ^ n) 500000000 GetNfactor.p_loop_fuel 1
      = .ok (2 ^ (n - 8)) := by
  interval_cases n <;> decide

/-- The final division of the test configuration at Moore step `n ≤ 35` is
exact and its quotient is a power of two. -/
theorem GetNfactor.test_quotient (n : Nat) (hn : n ≤ 35) :
    Int.tdiv (2 ^ 20 * 2 ^ n) (128 * (8 * 2 ^ (n / 5)) * 2 ^ (n - 8))
      = 2 ^ (if n ≤ 8 then 10 + n - n / 5 else 18 - n / 5) ∧
    (128 : Int) * 2 ^ (if n ≤ 8 then 10 + n - n / 5 else 18 - n / 5)
      * (8 * 2 ^ (n / 5)) * 2 ^ (n - 8) = 2 ^ 20 * 2 ^ n ∧
    10 ≤ (if n ≤ 8 then 10 + n - n / 5 else 18 - n / 5) ∧
    (if n ≤ 8 then 10 + n - n / 5 else 18 - n / 5) ≤ 17 := by
  interval_cases n <;> decide

/-- Under the test configuration a run that reaches the final division has
`p = 2 ^ (a - 8)`, `mem = 2 ^ 20 * 2 ^ a` and `r0 = 8 * 2 ^ k`, with `a ≤ 35`
the step count modulo 64 and `k ≤ 28` the count `moore_steps / 5` modulo 32. -/
theorem GetNfactor.trace_test_masked {t : Int} {tr : GetNfactor.Trace}
    (h : GetNfactor.trace test_pars t = .ok tr) :
    ∃ a k : Nat, tr.moore_steps % 64 = (a : Int) ∧ a ≤ 35 ∧
      Int.tdiv tr.moore_steps 5 % 32 = (k : Int) ∧ k ≤ 28 ∧
      tr.p = 2 ^ (a - 8) ∧ tr.r0 = 8 * 2 ^ k ∧ tr.mem = 2 ^ 20 * 2 ^ a ∧
      tr.N = Int.tdiv (2 ^ 20 * 2 ^ a) (128 * (8 * 2 ^ k) * 2 ^ (a - 8)) := by
  obtain ⟨-, -, h35, -, -, hg, hmm, hloop, -, -, -, -, hmem, ⟨h28, -, hr0⟩, -, hN⟩ :=
    GetNfactor.trace_ok_inv h
  obtain ⟨a, ha⟩ : ∃ a : Nat, tr.moore_steps % 64 = (a : Int) :=
    ⟨_, (Int.toNat_of_nonneg (Int.emod_nonneg _ (by norm_num))).symm⟩
  obtain ⟨k, hk⟩ : ∃ k : Nat, Int.tdiv tr.moore_steps 5 % 32 = (k : Int) :=
    ⟨_, (Int.toNat_of_nonneg (Int.emod_nonneg _ (by norm_num))).symm⟩
  rw [ha] at h35 hg
  rw [hk] at h28 hr0
  rw [Int.toNat_ofNat] at hg hr0
  have ha35 : a ≤ 35 := by omega
  rw [GetNfactor.max_mem_count_test] at hmm
  have hmax : tr.max_mem = 500000000 := (Except.ok.inj hmm).symm
  rw [hg, hmax, GetNfactor.p_loop_test a (by omega)] at hloop
  have hp : tr.p = 2 ^ (a - 8) := (Except.ok.inj hloop).symm
  rw [hmem, hg, hr0, hp] at hN
  exact ⟨a, k, ha, ha35, hk, by omega, hp, hr0, by rw [hmem, hg], hN⟩

/-- Under the test configuration a run that reaches the final division at a
step count `0 ≤ n < 64`, where no shift count is reduced, has `n ≤ 35`,
`p = 2 ^ (n - 8)`, `r0 = 8 * 2 ^ (n / 5)`, `mem = 2 ^ 20 * 2 ^ n` and the exact
power-of-two quotient `N`. -/
theorem GetNfactor.trace_test_closed {t : Int} {tr : GetNfactor.Trace}
    (h : GetNfactor.trace test_pars t = .ok tr)
    (h0 : 0 ≤ tr.moore_steps) (h64 : tr.moore_steps < 64) :
    ∃ n : Nat, tr.moore_steps = (n : Int) ∧ n ≤ 35 ∧
      tr.p = 2 ^ (n - 8) ∧ tr.r0 = 8 * 2 ^ (n / 5) ∧ tr.mem = 2 ^ 20 * 2 ^ n ∧
      tr.N = 2 ^ (if n ≤ 8 then 10 + n - n / 5 else 18 - n / 5) ∧
      128 * tr.N * tr.r0 * tr.p = tr.mem := by
  obtain ⟨a, k, ha, ha35, hk, -, hp, hr0, hmem, hN⟩ := GetNfactor.trace_test_masked h
  have hs : tr.moore_steps = (a : Int) := by omega
  have hdiv : Int.tdiv tr.moore_steps 5 = tr.moore_steps / 5 :=
    Int.tdiv_eq_ediv h0 (by norm_num)
  have hka : k = a / 5 := by
    rw [hdiv] at hk
    omega
  subst hka
  obtain ⟨hq, hexact, -, -⟩ := GetNfactor.test_quotient a ha35
  rw [hq] at hN
  refine ⟨a, hs, ha35, hp, hr0, hmem, hN, ?_⟩
  rw [hN, hr0, hmem, hp]
  exact hexact

/-- Under the test configuration the quotient of the final division is at most
`2 ^ 18`, whatever the reduced shift counts are. -/
theorem GetNfactor.test_N_le (a k : Nat) (ha : a ≤ 35) :
    Int.tdiv (2 ^ 20 * 2 ^ a) (128 * (8 * 2 ^ k) * 2 ^ (a - 8)) ≤ 2 ^ 18 := by
  have hk1 : (1 : Int) ≤ 2 ^ k := one_le_pow₀ (by norm_num)
  have hre : (128 : Int) * (8 * 2 ^ k) * 2 ^ (a - 8) = 128 * 8 * 2 ^ (a - 8) * 2 ^ k := by ring
  rw [hre, Int.tdiv_eq_ediv (by positivity) (by positivity)]
  have hx : (2 : Int) ^ 20 * 2 ^ a ≤ 2 ^ 18 * (128 * 8 * 2 ^ (a - 8)) := by
    interval_cases a <;> decide
  have hD : (128 : Int) * 8 * 2 ^ (a - 8) ≤ 128 * 8 * 2 ^ (a - 8) * 2 ^ k :=
    le_mul_of_one_le_right (by positivity) hk1
  exact Int.ediv_le_of_le_mul (by positivity)
    (le_trans hx (mul_le_mul_of_nonneg_left hD (by positivity)))

/-- Under the test configuration every block time whose 64-bit step quotient
`n` is at most 35 gets a tuple: `N` and `p` by the closed form, and `r` in
`[r0, 2 * r0)`. -/
theorem GetNfactor.test_returns (t : Int) (n : Nat)
    (hrep : GetNfactor.moore_steps_rep (GetNfactor.clamp t) = (n : Int)) (hn : n ≤ 35) :
    GetNfactor.moore_steps (GetNfactor.clamp t) = (n : Int) ∧
    ∃ r : Nat, 8 * 2 ^ (n / 5) ≤ r ∧ r < 2 * (8 * 2 ^ (n / 5)) ∧
      GetNfactor test_pars t
        = .ok (2 ^ (if n ≤ 8 then 10 + n - n / 5 else 18 - n / 5), r, 2 ^ (n - 8)) := by
  have hs : GetNfactor.moore_steps (GetNfactor.clamp t) = (n : Int) := by
    unfold GetNfactor.moore_steps to_int
    rw [hrep]
    omega
  refine ⟨hs, ?_⟩
  have hge := GetNfactor.clamp_ge t
  rw [GetNfactor.moore_steps_rep_eq hge] at hrep
  rw [GetNfactor.birth_time_eq] at hge
  have hden : (5 : Int) * GetNfactor.moore_period * GetNfactor.avg_months = 233280000 := by
    rw [GetNfactor.avg_months_eq, GetNfactor.moore_period]; norm_num
  have hsince : GetNfactor.clamp t - GetNfactor.last_r_step_time (n : Int)
      = GetNfactor.clamp t - 1399248000 - ((n : Int) - (n : Int) % 5) * 46656000 :=
    GetNfactor.since_eq (by omega)
  have hk7 : n / 5 ≤ 7 := by omega
  have hpkZ : (2 : Int) ^ (n / 5) ≤ 2 ^ 7 := pow_le_pow_right₀ (by norm_num) hk7
  have hposKZ : (1 : Int) ≤ 2 ^ (n / 5) := one_le_pow₀ (by norm_num)
  norm_num at hpkZ
  have hs0 : 0 ≤ GetNfactor.clamp t - GetNfactor.last_r_step_time (n : Int) := by
    rw [hsince]; omega
  have hs1 : GetNfactor.clamp t - GetNfactor.last_r_step_time (n : Int) < 233280000 := by
    rw [hsince]; omega
  have hX0 : 0 ≤ 8 * 2 ^ (n / 5)
      * (GetNfactor.clamp t - GetNfactor.last_r_step_time (n : Int)) :=
    Int.mul_nonneg (by omega) hs0
  have hX1 : 8 * 2 ^ (n / 5) * (GetNfactor.clamp t - GetNfactor.last_r_step_time (n : Int))
      ≤ 1024 * (GetNfactor.clamp t - GetNfactor.last_r_step_time (n : Int)) :=
    Int.mul_le_mul_of_nonneg_right (by omega) hs0
  have hX2 : 8 * 2 ^ (n / 5) * (GetNfactor.clamp t - GetNfactor.last_r_step_time (n : Int))
      < 8 * 2 ^ (n / 5) * 233280000 :=
    Int.mul_lt_mul_of_pos_left hs1 (by omega)
  have htd : Int.tdiv
      (8 * 2 ^ (n / 5) * (GetNfactor.clamp t - GetNfactor.last_r_step_time (n : Int)))
      233280000
      = (8 * 2 ^ (n / 5) * (GetNfactor.clamp t - GetNfactor.last_r_step_time (n : Int)))
        / 233280000 := Int.tdiv_eq_ediv hX0 (by norm_num)
  have hpfit : fits_long_long (128 * (8 * 2 ^ (n / 5)) * 2 ^ (n - 8)) ∧
      (2 : Int) ^ (n - 8) ≠ 0 ∧ (0 : Int) ≤ 2 ^ (n - 8) ∧ (2 : Int) ^ (n - 8) ≤ UINT32_MAX := by
    interval_cases n <;> decide
  obtain ⟨tr, htr⟩ := GetNfactor.trace_ok_of test_pars t n 500000000 (2 ^ (n - 8)) hs hn
    GetNfactor.max_mem_count_test (GetNfactor.p_loop_test n (by omega))
    (fits_of_bounds hX0 (by omega))
    (by rw [hden, htd]
        exact fits_of_bounds (by omega) (by omega))
    hpfit.1 hpfit.2.1
  obtain ⟨hbt, hms, -, -, -, -, -, -, -, -, -, -, -, -, hr, -⟩ :=
    GetNfactor.trace_ok_inv htr
  obtain ⟨m, hm, -, hp, hr0, -, hN, -⟩ := GetNfactor.trace_test_closed htr
    (by rw [hms, hs]; omega) (by rw [hms, hs]; omega)
  have hmn : m = n := by
    have : (m : Int) = (n : Int) := by rw [← hm, hms, hs]
    exact_mod_cast this
  subst hmn
  rw [hbt, hm, hden, hr0, htd] at hr
  have hNle : (2 : Int) ^ (if m ≤ 8 then 10 + m - m / 5 else 18 - m / 5) ≤ 2 ^ 17 :=
    pow_le_pow_right₀ (by norm_num) (GetNfactor.test_quotient m hn).2.2.2
  have hNpos : (0 : Int) ≤ 2 ^ (if m ≤ 8 then 10 + m - m / 5 else 18 - m / 5) := by positivity
  have hget := GetNfactor_of_trace htr
    (by rw [hN]
        rw [show (2 : Int) ^ 17 = 131072 from by norm_num] at hNle
        unfold UINT32_MAX
        exact ⟨hNpos, by omega⟩)
    (by rw [hr]; unfold UINT32_MAX; constructor <;> omega)
    (by rw [hp]; exact hpfit.2.2)
  have hNnat : tr.N.toNat = 2 ^ (if m ≤ 8 then 10 + m - m / 5 else 18 - m / 5) := by
    rw [hN]
    have : (2 : Int) ^ (if m ≤ 8 then 10 + m - m / 5 else 18 - m / 5)
        = ((2 ^ (if m ≤ 8 then 10 + m - m / 5 else 18 - m / 5) : Nat) : Int) := by
      push_cast; rfl
    rw [this, Int.toNat_ofNat]
  have hpnat : tr.p.toNat = 2 ^ (m - 8) := by
    rw [hp]
    have : (2 : Int) ^ (m - 8) = ((2 ^ (m - 8) : Nat) : Int) := by push_cast; rfl
    rw [this, Int.toNat_ofNat]
  rw [hNnat, hpnat] at hget
  refine ⟨tr.r.toNat, ?_, ?_, hget⟩
  · have hz : ((8 * 2 ^ (m / 5) : Nat) : Int) ≤ ((tr.r.toNat : Nat) : Int) := by
      rw [Int.toNat_of_nonneg (by rw [hr]; omega)]
      push_cast
      rw [hr]; omega
    exact_mod_cast hz
  · have hz : ((tr.r.toNat : Nat) : Int) < ((2 * (8 * 2 ^ (m / 5)) : Nat) : Int) := by
      rw [Int.toNat_of_nonneg (by rw [hr]; omega)]
      push_cast
      rw [hr]; omega
    exact_mod_cast hz

/-- Under the test configuration, with a step count from 36 to 42 the grown
memory and the loop succeed and `birth_total_memory * moor_mem_multiplier` is
the first failure. -/
theorem GetNfactor.locals_overflow_total (t : Int) (n : Nat)
    (hs : GetNfactor.moore_steps (GetNfactor.clamp t) = (n : Int))
    (h36 : 36 ≤ n) (h42 : n ≤ 42) :
    GetNfactor.locals test_pars t = .error .overflow_error := by
  have hlo : (2 : Int) ^ 36 ≤ 2 ^ n := pow_le_pow_right₀ (by norm_num) h36
  have hhi : (2 : Int) ^ n ≤ 2 ^ 42 := pow_le_pow_right₀ (by norm_num) h42
  have hhiN : 2 ^ n ≤ 2 ^ 42 := Nat.pow_le_pow_right (by norm_num) h42
  norm_num at hlo hhi hhiN
  have h1 : safe.mul 1024 1024 = .ok 1048576 := by decide
  have h2 : safe.mul 1 1048576 = .ok 1048576 := by decide
  have h3 : safe.mul 128 1048576 = .ok 134217728 := by decide
  have h4 : safe.of_rep 500000000 = .ok 500000000 := by decide
  have hsh : shift_left 64 1 (n : Int) = .ok (2 ^ n) := by
    have := shift_left_exact (w := 64) (x := 1) (n := n) (by omega) (by norm_num; omega)
    rw [one_mul] at this
    exact this
  have hof : safe.of_unsigned (2 ^ n) = .ok ((2 : Int) ^ n) := by
    unfold safe.of_unsigned fits_long_long LLONG_MAX LLONG_MIN
    push_cast
    rw [if_pos (by constructor <;> omega)]
  have hmul : safe.mul 1048576 ((2 : Int) ^ n) = .ok (1048576 * 2 ^ n) :=
    safe_mul_ok (fits_of_bounds (by omega) (by omega))
  have hguard : ¬ ((1048576 : Int) * 2 ^ n < 1048576) := by omega
  have hp : GetNfactor.p_loop (1048576 * 2 ^ n) 500000000 GetNfactor.p_loop_fuel 1
      = .ok (2 ^ (n - 8)) := by
    have := GetNfactor.p_loop_test n h42
    rw [show (2 : Int) ^ 20 = 1048576 from by norm_num] at this
    exact this
  have hcores : shift_left 64 GetNfactor.birth_cores (n : Int)
      = .ok (GetNfactor.birth_cores * 2 ^ n) :=
    shift_left_exact (by omega) (by rw [GetNfactor.birth_cores]; norm_num; omega)
  have hmul2 : safe.mul 134217728 ((2 : Int) ^ n) = .error .overflow_error := by
    unfold safe.mul fits_long_long LLONG_MAX LLONG_MIN
    rw [if_neg (by omega)]
  unfold GetNfactor.locals
  simp only [hs, h1, h2, h3, h4, hsh, hof, hmul, hguard, hp, hcores, hmul2,
    GetNfactor.max_mem_count_test, if_false, ok_bind, error_bind]

/-! ## The length error -/


theorem safe_mul_not_length (a b : Int) : safe.mul a b ≠ .error .length_error := by
  unfold safe.mul; split <;> intro h <;> cases h

theorem safe_add_not_length (a b : Int) : safe.add a b ≠ .error .length_error := by
  unfold safe.add; split <;> intro h <;> cases h

theorem safe_div_not_length (a b : Int) : safe.div a b ≠ .error .length_error := by
  unfold safe.div; split <;> intro h <;> cases h

theorem safe_of_unsigned_not_length (x : Nat) :
    safe.of_unsigned x ≠ .error .length_error := by
  unfold safe.of_unsigned; split <;> intro h <;> cases h

theorem safe_of_rep_not_length (x : Int) : safe.of_rep x ≠ .error .length_error := by
  unfold safe.of_rep; split <;> intro h <;> cases h

theorem safe_cast_unsigned_not_length (x : Int) :
    safe.cast_unsigned x ≠ .error .length_error := by
  unfold safe.cast_unsigned; split <;> intro h <;> cases h

theorem shift_left_not_length (w x : Nat) (n : Int) :
    shift_left w x n ≠ .error .length_error := by
  unfold shift_left; intro h; cases h

theorem max_mem_count_not_length (cfg : pars) :
    GetNfactor.max_mem_count cfg ≠ .error .length_error := by
  unfold GetNfactor.max_mem_count
  dsimp only
  split <;> intro h <;> cases h

theorem p_loop_not_length (mem mm : Int) (fuel : Nat) :
    ∀ p : Int, GetNfactor.p_loop mem mm fuel p ≠ .error .length_error := by
  induction fuel with
  | zero => intro p h; cases h
  | succ f ih =>
    intro p
    unfold GetNfactor.p_loop
    refine bind_ne_error (safe_div_not_length _ _) (fun q => ?_)
    split
    · exact bind_ne_error (safe_mul_not_length _ _) (fun p2 => ih p2)
    · intro h; cases h

/-- No statement before the closing test raises the length error. -/
theorem GetNfactor.trace_not_length (cfg : pars) (t : Int) :
    GetNfactor.trace cfg t ≠ .error .length_error := by
  unfold GetNfactor.trace
  refine bind_ne_error (safe_mul_not_length _ _) (fun MiB => ?_)
  refine bind_ne_error (safe_mul_not_length _ _) (fun initial_mem => ?_)
  refine bind_ne_error (shift_left_not_length _ _ _) (fun shifted => ?_)
  refine bind_ne_error (safe_of_unsigned_not_length _) (fun mult => ?_)
  refine bind_ne_error (safe_mul_not_length _ _) (fun mem0 => ?_)
  refine guard_ne_error (by decide) ?_
  refine bind_ne_error (safe_mul_not_length _ _) (fun btm => ?_)
  refine bind_ne_error (max_mem_count_not_length _) (fun count => ?_)
  refine bind_ne_error (safe_of_rep_not_length _) (fun max_mem => ?_)
  refine bind_ne_error (p_loop_not_length _ _ _ _) (fun p => ?_)
  refine bind_ne_error (shift_left_not_length _ _ _) (fun cores => ?_)
  refine bind_ne_error (safe_mul_not_length _ _) (fun mtm => ?_)
  refine guard_ne_error (by decide) ?_
  refine bind_ne_error (safe_div_not_length _ _) (fun per_mem => ?_)
  refine bind_ne_error (safe_of_unsigned_not_length _) (fun cores_s => ?_)
  refine bind_ne_error ?_ (fun mem => ?_)
  · split
    · exact safe_mul_not_length _ _
    · intro h; cases h
  refine bind_ne_error (shift_left_not_length _ _ _) (fun r0u => ?_)
  refine bind_ne_error (safe_of_unsigned_not_length _) (fun r0 => ?_)
  refine bind_ne_error (safe_mul_not_length _ _) (fun scaled => ?_)
  refine bind_ne_error (safe_div_not_length _ _) (fun grown => ?_)
  refine bind_ne_error (safe_add_not_length _ _) (fun r => ?_)
  refine bind_ne_error (safe_mul_not_length _ _) (fun d1 => ?_)
  refine bind_ne_error (safe_mul_not_length _ _) (fun d => ?_)
  refine bind_ne_error (safe_div_not_length _ _) (fun N => ?_)
  intro h; cases h

/-- The call fails with the length error exactly when the body reaches the
final division with a quotient above `2 ^ 32 - 1`. -/
theorem GetNfactor_length_error_iff (cfg : pars) (t : Int) :
    GetNfactor cfg t = .error .length_error ↔
      ∃ tr, GetNfactor.trace cfg t = .ok tr ∧ UINT32_MAX < tr.N := by
  constructor
  · intro h
    unfold GetNfactor at h
    rw [GetNfactor.locals_eq_trace] at h
    cases htr : GetNfactor.trace cfg t with
    | error e =>
      rw [htr] at h
      have he : e = .length_error := by
        change (Except.error e : Except Failure (Nat × Nat × Nat)) = .error .length_error at h
        cases h; rfl
      rw [he] at htr
      exact absurd htr (GetNfactor.trace_not_length cfg t)
    | ok tr =>
      refine ⟨tr, rfl, ?_⟩
      by_contra hle
      rw [htr] at h
      simp only [ok_bind, GetNfactor.length_check] at h
      rw [if_neg hle] at h
      simp only [ok_bind] at h
      revert h
      refine bind_ne_error (safe_cast_unsigned_not_length _) (fun N => ?_)
      refine bind_ne_error (safe_cast_unsigned_not_length _) (fun r => ?_)
      refine bind_ne_error (safe_cast_unsigned_not_length _) (fun p => ?_)
      intro h; cases h
  · rintro ⟨tr, htr, hbig⟩
    unfold GetNfactor
    rw [GetNfactor.locals_eq_trace, htr]
    simp only [ok_bind, GetNfactor.length_check]
    rw [if_pos hbig]
    rfl

/-! ## The validity window of the test configuration -/

/-- C16 (validity window): with the test configuration, for every 32-bit wire
timestamp `t` with step count `s`: `s ≤ 35` exactly when
`t < 3,078,864,000 = birth_time + 36 * 46,656,000`; `GetNfactor` returns a
tuple exactly when `s ≤ 35`; for `s ≥ 36` it fails with the overflow error,
which for `36 ≤ s ≤ 42` comes from `birth_total_memory * 2 ^ s` after
`initial_mem * 2 ^ s` and the loop succeeded, and for `s ≥ 43` from
`initial_mem * 2 ^ s`. -/
theorem GetNfactor_test_validity_window (t : Nat) (ht : t < 2 ^ 32) :
    (3078864000 : Int) = GetNfactor.birth_time + 36 * 46656000 ∧
    ∃ s : Nat, GetNfactor.moore_steps (GetNfactor.clamp (clock.from_nTime t)) = (s : Int) ∧
      (s ≤ 35 ↔ t < 3078864000) ∧
      ((∃ res, GetNfactor test_pars (clock.from_nTime t) = .ok res) ↔ s ≤ 35) ∧
      (36 ≤ s → GetNfactor test_pars (clock.from_nTime t) = .error .overflow_error) ∧
      (36 ≤ s → s ≤ 42 →
        safe.mul (2 ^ 20) (2 ^ s) = .ok (2 ^ 20 * 2 ^ s) ∧
        GetNfactor.p_loop (2 ^ 20 * 2 ^ s) 500000000 GetNfactor.p_loop_fuel 1
          = .ok (2 ^ (s - 8)) ∧
        safe.mul (2 ^ 27) (2 ^ s) = .error .overflow_error) ∧
      (43 ≤ s → safe.mul (2 ^ 20) (2 ^ s) = .error .overflow_error) := by
  refine ⟨by decide, ?_⟩
  obtain ⟨hexact, hs0, hs62⟩ := GetNfactor.wire_moore_steps t ht
  have hrep := GetNfactor.moore_steps_rep_eq (GetNfactor.clamp_ge (clock.from_nTime t))
  have hclamp : GetNfactor.clamp (clock.from_nTime t)
      = if (t : Int) < 1399248000 then 1399248000 else (t : Int) := by
    unfold GetNfactor.clamp clock.from_nTime
    rw [GetNfactor.birth_time_eq]
  obtain ⟨s, hs⟩ : ∃ s : Nat,
      GetNfactor.moore_steps (GetNfactor.clamp (clock.from_nTime t)) = (s : Int) :=
    ⟨_, (Int.toNat_of_nonneg hs0).symm⟩
  have hs62N : s ≤ 62 := by omega
  have hwin : s ≤ 35 ↔ t < 3078864000 := by
    rw [hs, hclamp] at hexact
    split at hexact <;> omega
  have hfail : 36 ≤ s →
      GetNfactor test_pars (clock.from_nTime t) = .error .overflow_error := by
    intro h36
    unfold GetNfactor
    by_cases h42 : s ≤ 42
    · rw [GetNfactor.locals_overflow_total _ s hs h36 h42]; rfl
    · rw [GetNfactor.locals_overflow test_pars _ s hs (by omega) hs62N]; rfl
  refine ⟨s, hs, hwin, ⟨?_, ?_⟩, hfail, ?_, ?_⟩
  · rintro ⟨res, hres⟩
    by_contra hcon
    rw [hfail (by omega)] at hres
    cases hres
  · intro h35
    obtain ⟨-, r, -, -, hget⟩ :=
      GetNfactor.test_returns (clock.from_nTime t) s (by rw [← hs, hexact, hrep]) h35
    exact ⟨_, hget⟩
  · intro h36 h42
    have hlo : (2 : Int) ^ 36 ≤ 2 ^ s := pow_le_pow_right₀ (by norm_num) h36
    have hhi : (2 : Int) ^ s ≤ 2 ^ 42 := pow_le_pow_right₀ (by norm_num) h42
    norm_num at hlo hhi
    refine ⟨safe_mul_ok (fits_of_bounds (by positivity) (by norm_num; omega)),
      GetNfactor.p_loop_test s h42, ?_⟩
    unfold safe.mul fits_long_long LLONG_MAX LLONG_MIN
    rw [if_neg (by norm_num; omega)]
  · intro h43
    have hlo : (2 : Int) ^ 43 ≤ 2 ^ s := pow_le_pow_right₀ (by norm_num) h43
    norm_num at hlo
    unfold safe.mul fits_long_long LLONG_MAX LLONG_MIN
    rw [if_neg (by norm_num; omega)]

/-- Witness of C16 at the two edges of the window: the last second of Moore
step 35 returns a tuple, the first second of step 36 fails. -/
theorem GetNfactor_test_validity_window_witness :
    (3078863999 : Nat) < 2 ^ 32 ∧
    GetNfactor test_pars (clock.from_nTime 3078863999) = .ok (2048, 1228, 134217728) ∧
    GetNfactor test_pars (clock.from_nTime 3078864000) = .error .overflow_error ∧
    (3078864000 : Int) = GetNfactor.birth_time + 36 * 46656000 :=
  ⟨by decide, by decide, by decide,
    (GetNfactor_test_validity_window 3078863999 (by decide)).1⟩

/-! ## The closed form of the test configuration -/

/-- C19 as stated fails in two ways. At the block time
`birth_time + 2 ^ 32 * 46,656,000` s, a signed 64-bit count, the narrowing to
`int` leaves `moore_steps = 0 ≤ 35` while the 64-bit quotient is `2 ^ 32`; `r`
then exceeds 32 bits and the call fails with a range error instead of
returning the tuple of the closed form. At the block time
`birth_time + 64 * 46,656,000` s the shift `1ULL << 64` reads its count as 0
and the call returns a tuple with `N = 0`, below `2 ^ 10`. -/
theorem GetNfactor_test_closed_form_counterexample :
    fits_long_long 200385995561424000 ∧
    GetNfactor.moore_steps_rep (GetNfactor.clamp 200385995561424000) = 4294967296 ∧
    GetNfactor.moore_steps (GetNfactor.clamp 200385995561424000) = 0 ∧
    GetNfactor test_pars 200385995561424000 = .error .range_error ∧
    (¬ ∃ res, GetNfactor test_pars 200385995561424000 = .ok res) ∧
    fits_long_long 4385232000 ∧
    GetNfactor.moore_steps (GetNfactor.clamp 4385232000) = 64 ∧
    GetNfactor test_pars 4385232000 = .ok (0, 58982, 1) ∧
    ¬ (2 ^ 10 ≤ 0) := by
  refine ⟨by decide, by decide, by decide, by decide, ?_, by decide, by decide, by decide,
    by decide⟩
  rintro ⟨res, hres⟩
  have hfail : GetNfactor test_pars 200385995561424000 = .error .range_error := by decide
  rw [hfail] at hres
  cases hres

/-- C19 amended: with the test configuration, for every block time whose step
count before the narrowing to `int` is `s ≤ 35` (every block time before
`birth_time + 36 * 46,656,000` s), `moore_steps = s` and `GetNfactor` returns
`p = 2 ^ (s - 8)` (1 for `s ≤ 8`) and `N = 2 ^ (10 + s - s / 5)` for `s ≤ 8`,
`N = 2 ^ (18 - s / 5)` for `s ≥ 9`; on every tuple returned at a block time
whose step count before the narrowing is below 64 (every block time before
`birth_time + 64 * 46,656,000` s, so every wire timestamp)
`2 ^ 10 ≤ N ≤ 2 ^ 17`; the call never fails with the length error; and `N`
falls from `2 ^ 17` at step 9 to `2 ^ 16` at step 10. -/
theorem GetNfactor_test_closed_form (t : Int) :
    (∀ s : Nat, GetNfactor.moore_steps_rep (GetNfactor.clamp t) = (s : Int) → s ≤ 35 →
      GetNfactor.moore_steps (GetNfactor.clamp t) = (s : Int) ∧
      ∃ r : Nat, GetNfactor test_pars t
        = .ok (2 ^ (if s ≤ 8 then 10 + s - s / 5 else 18 - s / 5), r, 2 ^ (s - 8))) ∧
    (∀ N r p : Nat, GetNfactor.moore_steps_rep (GetNfactor.clamp t) < 64 →
      GetNfactor test_pars t = .ok (N, r, p) → 2 ^ 10 ≤ N ∧ N ≤ 2 ^ 17) ∧
    GetNfactor test_pars t ≠ .error .length_error ∧
    GetNfactor test_pars (GetNfactor.birth_time + 9 * 46656000) = .ok (2 ^ 17, 28, 2) ∧
    GetNfactor test_pars (GetNfactor.birth_time + 10 * 46656000) = .ok (2 ^ 16, 32, 4) := by
  refine ⟨?_, ?_, ?_, by decide, by decide⟩
  · intro s hrep hs
    obtain ⟨hms, r, -, -, hget⟩ := GetNfactor.test_returns t s hrep hs
    exact ⟨hms, r, hget⟩
  · intro N r p h64 h
    obtain ⟨l, tr, -, htr, -, -, -, -, -, -, -, hN, -⟩ := GetNfactor_ok_trace h
    obtain ⟨-, hms, -⟩ := GetNfactor.trace_ok_inv htr
    have hge := GetNfactor.clamp_ge t
    have hrep := GetNfactor.moore_steps_rep_eq hge
    rw [GetNfactor.birth_time_eq] at hge
    have hsteps : tr.moore_steps = GetNfactor.moore_steps_rep (GetNfactor.clamp t) := by
      rw [hms]
      unfold GetNfactor.moore_steps to_int
      rw [hrep] at h64 ⊢
      omega
    obtain ⟨n, -, hn, -, -, -, hq, -⟩ := GetNfactor.trace_test_closed htr
      (by rw [hsteps, hrep]; omega) (by rw [hsteps]; exact h64)
    obtain ⟨-, -, h10, h17⟩ := GetNfactor.test_quotient n hn
    have hNk : N = 2 ^ (if n ≤ 8 then 10 + n - n / 5 else 18 - n / 5) := by
      have : (N : Int)
          = ((2 ^ (if n ≤ 8 then 10 + n - n / 5 else 18 - n / 5) : Nat) : Int) := by
        rw [hN, hq]; push_cast; rfl
      exact_mod_cast this
    rw [hNk]
    exact ⟨Nat.pow_le_pow_right (by norm_num) h10, Nat.pow_le_pow_right (by norm_num) h17⟩
  · intro h
    obtain ⟨tr, htr, hbig⟩ := (GetNfactor_length_error_iff test_pars t).mp h
    obtain ⟨a, k, -, ha, -, -, -, -, -, hN⟩ := GetNfactor.trace_test_masked htr
    have hle := GetNfactor.test_N_le a k ha
    rw [hN] at hbig
    unfold UINT32_MAX at hbig
    rw [show (2 : Int) ^ 18 = 262144 from by norm_num] at hle
    omega

/-- Witness of C19 amended at Moore step 12 of the test configuration:
`N = 2 ^ (18 - 2)` and `p = 2 ^ (12 - 8)`. -/
theorem GetNfactor_test_closed_form_witness :
    GetNfactor.moore_steps_rep (GetNfactor.clamp 1959120000) = ((12 : Nat) : Int) ∧
    GetNfactor test_pars 1959120000 = .ok (65536, 44, 16) ∧
    GetNfactor.moore_steps (GetNfactor.clamp 1959120000) = ((12 : Nat) : Int) ∧
    (2 ^ 10 ≤ 65536 ∧ 65536 ≤ 2 ^ 17) :=
  ⟨by decide, by decide,
    ((GetNfactor_test_closed_form 1959120000).1 12 (by decide) (by decide)).1,
    (GetNfactor_test_closed_form 1959120000).2.1 65536 44 16 (by decide) (by decide)⟩

/-! ## Block times whose shift count reaches the operand width -/

/-- A run of the body that reaches the final division at a step count
`0 ≤ moore_steps < 64`, where no shift count reaches the width of its operand,
has `moore_steps ≤ 35`, `mem = 2 ^ (20 + moore_steps)`,
`moore_cores = 2 ^ (moore_steps + 1)` and `r0 = 8 * 2 ^ (moore_steps / 5)`. -/
theorem GetNfactor.trace_unreduced {cfg : pars} {t : Int} {tr : GetNfactor.Trace}
    (h : GetNfactor.trace cfg t = .ok tr)
    (h0 : 0 ≤ tr.moore_steps) (h64 : tr.moore_steps < 64) :
    tr.moore_steps ≤ 35 ∧
    tr.mem = 2 ^ (20 + tr.moore_steps.toNat) ∧
    tr.moore_cores = 2 ^ (tr.moore_steps.toNat + 1) ∧
    tr.r0 = 8 * 2 ^ (tr.moore_steps / 5).toNat := by
  obtain ⟨-, -, h35, -, -, hg, -, -, hcs, hmc, -, -, hmem, ⟨-, -, hr0⟩, -, -⟩ :=
    GetNfactor.trace_ok_inv h
  have hmod : tr.moore_steps % 64 = tr.moore_steps := by omega
  have hdiv : Int.tdiv tr.moore_steps 5 = tr.moore_steps / 5 :=
    Int.tdiv_eq_ediv h0 (by norm_num)
  have hk : tr.moore_steps / 5 % 32 = tr.moore_steps / 5 := by omega
  rw [hmod] at h35 hg hcs
  rw [hdiv, hk] at hr0
  refine ⟨h35, ?_, ?_, hr0⟩
  · rw [hmem, hg, pow_add]
  · rw [hmc, hcs, pow_succ]
    ring

/-- Between block times before `birth_time + 64 * 46,656,000` s, where no shift
count reaches the width of its operand, neither the `mem` of the final
division nor the returned `r` decreases with the block time. -/
theorem GetNfactor.mono_unreduced {cfg : pars} {t1 t2 : Int} {N1 r1 p1 N2 r2 p2 : Nat}
    (hle : t1 ≤ t2) (h64 : t2 < GetNfactor.birth_time + 64 * 46656000)
    (h1 : GetNfactor cfg t1 = .ok (N1, r1, p1))
    (h2 : GetNfactor cfg t2 = .ok (N2, r2, p2)) :
    (∃ tr1 tr2, GetNfactor.trace cfg t1 = .ok tr1 ∧ GetNfactor.trace cfg t2 = .ok tr2 ∧
      tr1.mem ≤ tr2.mem) ∧ r1 ≤ r2 := by
  obtain ⟨l1, tr1, -, htr1, -, -, -, -, -, -, -, -, hr1, -, -, hr1m, -⟩ :=
    GetNfactor_ok_trace h1
  obtain ⟨l2, tr2, -, htr2, -, -, -, -, -, -, -, -, hr2, -, -, hr2m, -⟩ :=
    GetNfactor_ok_trace h2
  obtain ⟨hs1, h01, -, -, hreq1, -, hlo1, hhi1⟩ := GetNfactor.trace_r_facts htr1 hr1m
  obtain ⟨hs2, h02, -, -, hreq2, -, hlo2, hhi2⟩ := GetNfactor.trace_r_facts htr2 hr2m
  obtain ⟨hbt1, -⟩ := GetNfactor.trace_ok_inv htr1
  obtain ⟨hbt2, -⟩ := GetNfactor.trace_ok_inv htr2
  have hc := GetNfactor.clamp_mono hle
  have hge1 := GetNfactor.clamp_ge t1
  rw [GetNfactor.birth_time_eq] at hge1 h64
  have hc2 : GetNfactor.clamp t2 < 1399248000 + 64 * 46656000 := by
    unfold GetNfactor.clamp
    rw [GetNfactor.birth_time_eq]
    split <;> omega
  have hsteps : tr1.moore_steps ≤ tr2.moore_steps := by omega
  have h642 : tr2.moore_steps < 64 := by omega
  obtain ⟨-, hm1, -, hr01⟩ := GetNfactor.trace_unreduced htr1 h01 (by omega)
  obtain ⟨-, hm2, -, hr02⟩ := GetNfactor.trace_unreduced htr2 h02 h642
  rw [hbt1, GetNfactor.since_eq h01] at hreq1
  rw [hbt2, GetNfactor.since_eq h02] at hreq2
  constructor
  · refine ⟨tr1, tr2, htr1, htr2, ?_⟩
    rw [hm1, hm2]
    exact pow_le_pow_right₀ (by norm_num) (by omega)
  suffices hz : tr1.r ≤ tr2.r by
    have : (r1 : Int) ≤ (r2 : Int) := by rw [hr1, hr2]; exact hz
    exact_mod_cast this
  by_cases hK : tr1.moore_steps / 5 = tr2.moore_steps / 5
  · -- no doubling between the two block times
    have hr0eq : tr1.r0 = tr2.r0 := by rw [hr01, hr02, hK]
    have hr0pos : (0 : Int) ≤ tr2.r0 := by rw [hr02]; positivity
    have hsle : GetNfactor.clamp t1 - 1399248000
          - (tr1.moore_steps - tr1.moore_steps % 5) * 46656000
        ≤ GetNfactor.clamp t2 - 1399248000
          - (tr2.moore_steps - tr2.moore_steps % 5) * 46656000 := by omega
    have hmul := Int.mul_le_mul_of_nonneg_left hsle hr0pos
    have hdiv := Int.ediv_le_ediv (by norm_num : (0 : Int) < 233280000) hmul
    rw [hreq1, hreq2, hr0eq]
    omega
  · -- at least one doubling in between
    have hKlt : (tr1.moore_steps / 5).toNat + 1 ≤ (tr2.moore_steps / 5).toNat := by omega
    have hpow : (2 : Int) ^ ((tr1.moore_steps / 5).toNat + 1)
        ≤ 2 ^ (tr2.moore_steps / 5).toNat := pow_le_pow_right₀ (by norm_num) hKlt
    rw [pow_succ] at hpow
    have : 2 * tr1.r0 ≤ tr2.r0 := by rw [hr01, hr02]; omega
    omega

/-- C8 at the block time `birth_time + 160 * 46,656,000` s under the test
configuration: `GetNfactor` returns a tuple with `moore_steps = 160`, so the
count `moore_steps / 5 = 32` of `initial_r << moore_steps / 5` is the width of
the shifted `unsigned`; the shift reads it as 0 and `r0 = 8`, not
`8 * 2 ^ 32`. -/
theorem GetNfactor_r0_at_shift_count_32 :
    fits_long_long 8864208000 ∧
    (8864208000 : Int) = GetNfactor.birth_time + 160 * 46656000 ∧
    GetNfactor test_pars 8864208000 = .ok (262144, 8, 16777216) ∧
    GetNfactor.locals test_pars 8864208000
      = .ok ⟨8864208000, 160, 4503599627370496, 16777216, 8589934592, 8, 8, 262144⟩ ∧
    Int.tdiv 160 5 = 32 ∧
    shift_left 32 GetNfactor.initial_r (Int.tdiv 160 5) = .ok 8 ∧
    (8 : Int) ≠ 8 * 2 ^ ((160 : Int) / 5).toNat := by
  decide

/-- C9 at the block times `birth_time + 12 * 46,656,000` s and
`birth_time + 64 * 46,656,000` s under the test configuration: `GetNfactor`
returns a tuple at both, the `mem` of the final division is `2 ^ 32` at the
first and, the shift `1ULL << 64` reading its count as 0, `2 ^ 20` at the
second, later one. -/
theorem GetNfactor_mem_at_shift_count_64 :
    GetNfactor.birth_time ≤ 1959120000 ∧ (1959120000 : Int) ≤ 4385232000 ∧
    fits_long_long 4385232000 ∧
    GetNfactor test_pars 1959120000 = .ok (65536, 44, 16) ∧
    GetNfactor test_pars 4385232000 = .ok (0, 58982, 1) ∧
    GetNfactor.locals test_pars 1959120000
      = .ok ⟨1959120000, 12, 4294967296, 16, 8192, 32, 44, 65536⟩ ∧
    GetNfactor.locals test_pars 4385232000
      = .ok ⟨4385232000, 64, 1048576, 1, 2, 32768, 58982, 0⟩ ∧
    ¬ ((4294967296 : Int) ≤ 1048576) := by
  decide

/-- C15 at the block time `birth_time + 64 * 46,656,000` s under the test
configuration: the shift `1ULL << 64` reads its count as 0, `mem` is `2 ^ 20`,
the divisor `128 * r0 * p` is `2 ^ 22`, and `GetNfactor` returns the tuple
`(0, 58982, 1)`: `N = 0` is no power of two and `128 * N * r0 * p` is not
`mem`. -/
theorem GetNfactor_test_N_at_shift_count_64 :
    fits_long_long 4385232000 ∧
    (4385232000 : Int) = GetNfactor.birth_time + 64 * 46656000 ∧
    GetNfactor test_pars 4385232000 = .ok (0, 58982, 1) ∧
    GetNfactor.locals test_pars 4385232000
      = .ok ⟨4385232000, 64, 1048576, 1, 2, 32768, 58982, 0⟩ ∧
    (¬ ∃ k : Nat, 0 = 2 ^ k) ∧ ¬ (1 ≤ 0) ∧
    (128 : Int) * 0 * 32768 * 1 ≠ 1048576 := by
  refine ⟨by decide, by decide, by decide, by decide, ?_, by decide, by decide⟩
  rintro ⟨k, hk⟩
  exact absurd hk.symm (by positivity)

/-- C17 at the block time `birth_time + 64 * 46,656,000` s under the test
configuration: the body reaches the final division with `moore_steps = 64`;
the shifts `1ULL << 64` and `birth_cores << 64` read their count as 0, so the
`mem` that is divided is `2 ^ 20`, not `2 ^ (20 + 64)`, and `moore_cores` is
`2`, not `2 ^ (64 + 1)`. -/
theorem GetNfactor_clamps_at_shift_count_64 :
    fits_long_long 4385232000 ∧
    GetNfactor.trace test_pars 4385232000 = .ok
      ⟨4385232000, 64, 1048576, 1, 1048576, 500000000, 1, 2, 2,
        134217728, 1048576, 1048576, 32768, 58982, 0⟩ ∧
    (1048576 : Int) ≠ 2 ^ (20 + (64 : Int).toNat) ∧
    (2 : Nat) ≠ 2 ^ ((64 : Int).toNat + 1) := by
  decide

/-- C18 at the block times `birth_time + 64 * 46,656,000` s and
`birth_time + 160 * 46,656,000` s under the test configuration: `GetNfactor`
returns a tuple at both, with `r = 58982` at the first and, the shift
`initial_r << 32` reading its count as 0, `r = 8` at the second, later one;
the last tuple of the wire range has `r = 1228`. -/
theorem GetNfactor_r_at_shift_count_32 :
    (3078863999 : Int) ≤ 4385232000 ∧ (4385232000 : Int) ≤ 8864208000 ∧
    fits_long_long 8864208000 ∧
    GetNfactor test_pars 3078863999 = .ok (2048, 1228, 134217728) ∧
    GetNfactor test_pars 4385232000 = .ok (0, 58982, 1) ∧
    GetNfactor test_pars 8864208000 = .ok (262144, 8, 16777216) ∧
    ¬ (58982 ≤ 8) ∧ ¬ (1228 ≤ 8) := by
  decide
